import Mathlib

/-!
The log module of chefsgo/log: its registry, its configuration, its pipeline.

A shallow embedding of `module.go`, `driver.go` and `interface.go`.

* A `*Log` is a pointer: records live in a heap `Ptr → Log`, the queue and
  the sink see pointers, and `msg.Time = ...` / `msg.format = ...` are heap
  updates.
* The connection (`Connect` interface) is external code.  It is modelled by
  the results its methods return, as functions of the calls made so far;
  every call the module makes is appended to `World.calls`.
* `sync.Mutex` is left out.  A method called on its own runs from its call
  until it returns, panics, or parks its caller on a channel operation or in
  `waiter.Wait()`.  In the async pipeline the callers and the `eventLoop`
  goroutine interleave; there the loop is followed statement group by
  statement group (receive and `write`, then `Done`), and a caller of `Write`
  may stand between `waiter.Add(1)` and the send.
* `sync.WaitGroup` is the standard library's: a counter, the number of
  callers asleep in `Wait`, and the wake-ups released to them.
* `levels`, `errInvalidLogConnection`, `strings.ToUpper` and the local time
  zone used by `time.Format` are not declared in these files; they are
  parameters (`Env`) or a constructor (`Error.errInvalidLogConnection`).
-/

namespace ChefsLog

/-- Level 日志级别 (`Level = int`). -/
abbrev Level := Int

/-- A non-nil `*Log`. -/
abbrev Ptr := Nat

/-- Values of type `Any` as far as `Configure` tells them apart by type
assertion; `other` stands for a value of any other dynamic type (`nil`
included). -/
inductive Any where
  | str (s : String)
  | bool (b : Bool)
  | int64 (i : Int)
  | int (i : Int)
  | map (m : List (String × Any))
  | other

/-- The type `Map` (`map[string]Any`); a nil map is the empty list. -/
abbrev Map := List (String × Any)

/-- Go map indexing `m[key]`: the value stored under the key, if any. -/
def Map.get (m : Map) (key : String) : Option Any :=
  (m.find? (fun kv => kv.1 == key)).map (fun kv => kv.2)

/-- The struct `Config`. -/
structure Config where
  Driver : String
  Level : Level
  Json : Bool
  Sync : Bool
  Pool : Int
  Format : String
  Setting : Map

/-- The struct `Log`. -/
structure Log where
  format : String
  Time : Int
  Level : Level
  Body : String
  deriving DecidableEq

/-- Error values.  Modelled from the spec: the declaration of
`errInvalidLogConnection` is not in the source files; the spec calls it the
"no connection" error.  Every other error is `other`. -/
inductive Error where
  | errInvalidLogConnection
  | other (text : String)
  deriving DecidableEq

/-- One call made on the connection; `Write` records the pointer passed and
the record it pointed to at that moment. -/
inductive Call where
  | Open
  | Close
  | Write (msg : Ptr) (log : Log)
  | Flush
  deriving DecidableEq

/-- The interface `Connect`: what each method returns, given the calls made
so far.  (`Flush` returns nothing.) -/
structure Connect where
  Open : List Call → Option Error
  Close : List Call → Option Error
  Write : List Call → Ptr → Log → Option Error

/-- The interface `Driver` (a non-nil value of it): `Connect(config)` returns
a connection, possibly nil, and an error, possibly nil. -/
structure Driver where
  Connect : Config → Option Connect × Option Error

/-- A buffered channel `make(chan T, cap)` with the values it holds, oldest
first. -/
structure Chan (α : Type) where
  cap : Nat
  buf : List α

/-- Why a call panicked. -/
inductive Panic where
  | invalidDriver (name : String)
  | failedConnect (err : Error)
  | failedOpen (err : Error)
  | nilDereference
  | negativeWaitGroup
  | waitGroupMisuse
  | waitGroupReused

/-- The type `sync.WaitGroup`: the counter, the number of callers asleep in
`Wait`, and the wake-ups released on its semaphore and not yet taken. -/
structure WaitGroup where
  counter : Int
  waiters : Nat
  sema : Nat

/-- The method `(*WaitGroup).Add`: the counter moves by `delta`; a negative
counter panics; so does a counter raised from zero while callers are asleep
in `Wait`; a counter that reaches zero releases every caller asleep in
`Wait` and resets their number. -/
def WaitGroup.Add (wg : WaitGroup) (delta : Int) : Except Panic WaitGroup :=
  let v := wg.counter + delta
  if v < 0 then .error .negativeWaitGroup
  else if wg.waiters ≠ 0 ∧ delta > 0 ∧ v = delta then .error .waitGroupMisuse
  else if v > 0 ∨ wg.waiters = 0 then .ok { wg with counter := v }
  else .ok { counter := 0, waiters := 0, sema := wg.sema + wg.waiters }

/-- The method `(*WaitGroup).Wait`, up to where its caller sleeps: `none` when
the counter is zero and `Wait` returns at once; otherwise the caller is
counted among the waiters and sleeps on the semaphore. -/
def WaitGroup.Wait (wg : WaitGroup) : Option WaitGroup :=
  if wg.counter = 0 then none else some { wg with waiters := wg.waiters + 1 }

/-- The rest of `(*WaitGroup).Wait` for a caller asleep: `none` while no
wake-up is released; with one, the caller takes it and returns, or panics
("WaitGroup is reused before previous Wait has returned") when the counter or
the number of waiters is no longer zero. -/
def WaitGroup.wake (wg : WaitGroup) : Option (Except Panic WaitGroup) :=
  if wg.sema = 0 then none
  else if wg.counter ≠ 0 ∨ wg.waiters ≠ 0 then some (.error .waitGroupReused)
  else some (.ok { wg with sema := wg.sema - 1 })

/-- The struct `Module` (without the mutex).  `drivers name = none` is a
missing key, `some none` a key holding a nil `Driver`; `logger` and `signal`
are `none` while the channel is nil. -/
structure Module where
  connected : Bool
  initialized : Bool
  launched : Bool
  config : Config
  drivers : String → Option (Option Driver)
  connect : Option Connect
  waiter : WaitGroup
  logger : Option (Chan Ptr)
  signal : Option (Chan Bool)

/-- The module together with what it acts on: the heap of records, the calls
made on connections, the value `time.Now().UnixNano()` returns, and the
number of `eventLoop` goroutines started. -/
structure World where
  mod : Module
  heap : Ptr → Log
  calls : List Call
  now : Int
  loops : Nat

/-- Where a caller is parked: in `this.logger <- msg`, in
`this.signal <- false`, in `this.waiter.Wait()`, or in the `select` of
`eventLoop`. -/
inductive Parked where
  | sendLogger
  | sendSignal
  | wait
  | select

/-- How a call ends: it returns a value, it panics, or it parks its caller;
each with the world it leaves. -/
inductive Outcome (α : Type) where
  | ret (v : α) (w : World)
  | panic (p : Panic) (w : World)
  | block (at_ : Parked) (w : World)

/-- What is not declared in the source files: the `levels` table (as the
list of its entries, in the order `range levels` visits them),
`strings.ToUpper`, and `time.Unix(0, t).Format("2006-01-02 15:04:05.000")`. -/
structure Env where
  levels : List (Level × String)
  ToUpper : String → String
  timeFormat : Int → String

/-- Go map indexing `levels[l]`: the label, or the empty string. -/
def Env.level (env : Env) (l : Level) : String :=
  match env.levels.find? (fun e => e.1 == l) with
  | some e => e.2
  | none => ""

/-! ## `strings.Replace` and `strconv.FormatInt` -/

/-- The loop of `strings.Replace(s, old, new, -1)` for a non-empty `old`:
`skip` counts the characters of a match still to be passed over. -/
def replaceGo (old new : List Char) : Nat → List Char → List Char
  | _, [] => []
  | k + 1, _ :: cs => replaceGo old new k cs
  | 0, c :: cs =>
    if old.isPrefixOf (c :: cs) then new ++ replaceGo old new (old.length - 1) cs
    else c :: replaceGo old new 0 cs

/-- The call `strings.Replace(s, old, new, -1)`: every non-overlapping
occurrence of `old`, from the left, becomes `new`; an empty `old` matches
before every character and at the end. -/
def Replace (s old new : String) : String :=
  if old.data = [] then String.mk (new.data ++ s.data.flatMap (fun c => c :: new.data))
  else String.mk (replaceGo old.data new.data 0 s.data)

/-- The call `strconv.FormatInt(i, 10)`. -/
def FormatInt (i : Int) : String :=
  match i with
  | Int.ofNat n => String.mk (Nat.toDigits 10 n)
  | Int.negSucc n => String.mk ('-' :: Nat.toDigits 10 (n + 1))

/-- The method `(*Log).Format`. -/
def Log.Format (env : Env) (log : Log) : String :=
  let message := log.format
  let message := Replace message "%nano%" (FormatInt log.Time)
  let message := Replace message "%time%" (env.timeFormat log.Time)
  let message := Replace message "%level%" (env.level log.Level)
  let message := Replace message "%body%" log.Body
  message

/-! ## The module's methods -/

/-- The argument of `Configure`: a `Config`, or any other value. -/
inductive Value where
  | config (cfg : Config)
  | any (a : Any)

/-- Assignment to `this.config`. -/
def World.setConfig (w : World) (config : Config) : World :=
  { w with mod := { w.mod with config := config } }

/-- Assignment through a `*Log`. -/
def World.store (w : World) (msg : Ptr) (log : Log) : World :=
  { w with heap := Function.update w.heap msg log }

/-- One more call on the connection. -/
def World.call (w : World) (c : Call) : World :=
  { w with calls := w.calls ++ [c] }

/-- A new state of `this.waiter`. -/
def World.setWaiter (w : World) (wg : WaitGroup) : World :=
  { w with mod := { w.mod with waiter := wg } }

/-- The channel `this.logger` with new contents. -/
def World.setLogger (w : World) (cap : Nat) (buf : List Ptr) : World :=
  { w with mod := { w.mod with logger := some ⟨cap, buf⟩ } }

/-- The channel `this.signal` with new contents. -/
def World.setSignal (w : World) (cap : Nat) (buf : List Bool) : World :=
  { w with mod := { w.mod with signal := some ⟨cap, buf⟩ } }

/-- The method `Module.Driver` (module.go and driver.go hold the same body):
a nil driver panics; with `override` the entry is written; without, it is
written only when `this.drivers[name]` is nil. -/
def Module.Driver (w : World) (name : String) (driver : Option Driver) (override : Bool) :
    Outcome Unit :=
  match driver with
  | none => .panic (.invalidDriver name) w
  | some d =>
    let put : World :=
      { w with mod := { w.mod with drivers := Function.update w.mod.drivers name (some (some d)) } }
    if override then .ret () put
    else
      match w.mod.drivers name with
      | some (some _) => .ret () w
      | _ => .ret () put

/-- The method `Module.Config`. -/
def Module.Config (w : World) (_name : String) (config : Config) (_override : Bool) : World :=
  w.setConfig config

/-- Configure, 设置驱动: `config["driver"].(string)`. -/
def configureDriver (config : Map) (c : Config) : Config :=
  match Map.get config "driver" with
  | some (.str driver) => { c with Driver := driver }
  | _ => c

/-- Configure, 设置级别: every entry of `levels` whose label is the upper-cased
value sets the level. -/
def configureLevel (env : Env) (config : Map) (c : Config) : Config :=
  match Map.get config "level" with
  | some (.str level) =>
    env.levels.foldl (fun c e => if env.ToUpper level = e.2 then { c with Level := e.1 } else c) c
  | _ => c

/-- Configure, 是否json: `config["json"].(bool)`. -/
def configureJson (config : Map) (c : Config) : Config :=
  match Map.get config "json" with
  | some (.bool json) => { c with Json := json }
  | _ => c

/-- Configure, 设置是否同步: `config["sync"].(bool)`. -/
def configureSync (config : Map) (c : Config) : Config :=
  match Map.get config "sync" with
  | some (.bool sync) => { c with Sync := sync }
  | _ => c

/-- Configure, 设置输出格式: `config["format"].(string)`. -/
def configureFormat (config : Map) (c : Config) : Config :=
  match Map.get config "format" with
  | some (.str format) => { c with Format := format }
  | _ => c

/-- Configure, 设置缓存池大小: `config["pool"].(int64)` with `pool > 0`. -/
def configurePool64 (config : Map) (c : Config) : Config :=
  match Map.get config "pool" with
  | some (.int64 pool) => if pool > 0 then { c with Pool := pool } else c
  | _ => c

/-- Configure, 设置缓存池大小: `config["pool"].(int)` with `pool > 0`. -/
def configurePool (config : Map) (c : Config) : Config :=
  match Map.get config "pool" with
  | some (.int pool) => if pool > 0 then { c with Pool := pool } else c
  | _ => c

/-- Configure, the last block: `config["setting"].(Map)`. -/
def configureSetting (config : Map) (c : Config) : Config :=
  match Map.get config "setting" with
  | some (.map setting) => { c with Setting := setting }
  | _ => c

/-- The method `Module.Configure`: a `Config` replaces the configuration; a
`Map` is read through its "log" entry, one block of the source after the
other; any other value is ignored. -/
def Module.Configure (env : Env) (w : World) (value : Value) : World :=
  match value with
  | .config cfg => w.setConfig cfg
  | .any (.map global) =>
    let config : Map :=
      match Map.get global "log" with
      | some (.map vvv) => vvv
      | _ => []
    let c := w.mod.config
    let c := configureDriver config c
    let c := configureLevel env config c
    let c := configureJson config c
    let c := configureSync config c
    let c := configureFormat config c
    let c := configurePool64 config c
    let c := configurePool config c
    let c := configureSetting config c
    w.setConfig c
  | .any _ => w

/-- The method `Module.Initialize`. -/
def Module.Initialize (w : World) : World :=
  if w.mod.initialized then w else { w with mod := { w.mod with initialized := true } }

/-- The method `Module.Connect`.  The channel sizes are the literals of the
source: `make(chan *Log, 100)` and `make(chan bool, 1)`. -/
def Module.Connect (w : World) : Outcome Unit :=
  if w.mod.connected then .ret () w
  else
    match w.mod.drivers w.mod.config.Driver with
    | none => .panic (.invalidDriver w.mod.config.Driver) w
    | some none => .panic .nilDereference w
    | some (some driver) =>
      match driver.Connect w.mod.config with
      | (_, some err) => .panic (.failedConnect err) w
      | (none, none) => .panic .nilDereference w
      | (some connect, none) =>
        match connect.Open w.calls with
        | some err => .panic (.failedOpen err) (w.call .Open)
        | none =>
          let w := w.call .Open
          .ret ()
            { w with
              mod := { w.mod with
                connect := some connect, logger := some ⟨100, []⟩, signal := some ⟨1, []⟩,
                connected := true }
              loops := if w.mod.config.Sync = false then w.loops + 1 else w.loops }

/-- The method `Module.Launch`. -/
def Module.Launch (w : World) : World :=
  if w.mod.launched then w else { w with mod := { w.mod with launched := true } }

/-- The method `Module.write`: without a connection the error; otherwise the
format is stored in the record and the connection's `Write` is called. -/
def Module.write (w : World) (msg : Ptr) : Option Error × World :=
  match w.mod.connect with
  | none => (some .errInvalidLogConnection, w)
  | some connect =>
    let w := w.store msg { w.heap msg with format := w.mod.config.Format }
    (connect.Write w.calls msg (w.heap msg), w.call (.Write msg (w.heap msg)))

/-- The call `this.waiter.Done()`, which is `Add(-1)`. -/
def Module.done (w : World) : Outcome Unit :=
  match w.mod.waiter.Add (-1) with
  | .error p => .panic p w
  | .ok wg => .ret () (w.setWaiter wg)

/-- The statements `log := <-this.logger; this.write(log)` of `eventLoop` and
of the loop in `flush`: the oldest record leaves the channel and is written
(the error is dropped); `none` when the channel is nil or empty. -/
def Module.receive (w : World) : Option World :=
  match w.mod.logger with
  | some ⟨cap, log :: rest⟩ => some (Module.write (w.setLogger cap rest) log).2
  | _ => none

/-- The last statement of `flush`, `this.connect.Flush()` (on a nil
connection: a nil dereference). -/
def Module.flushEnd (w : World) : Outcome Unit :=
  match w.mod.connect with
  | some _ => .ret () (w.call .Flush)
  | none => .panic .nilDereference w

/-- The loop of `Module.flush`, run over the records the channel holds:
receive one, `write` it (the error is dropped), `Done`. -/
def Module.flushLoop (cap : Nat) (w : World) : List Ptr → Outcome Unit
  | [] => .ret () w
  | log :: rest =>
    match Module.done (Module.write (w.setLogger cap rest) log).2 with
    | .ret _ w => Module.flushLoop cap w rest
    | o => o

/-- The method `Module.flush`: in async mode the channel is drained, then the
connection's `Flush` is called (on a nil connection: a nil dereference). -/
def Module.flush (w : World) : Outcome Unit :=
  let drained : Outcome Unit :=
    if w.mod.config.Sync = false then
      match w.mod.logger with
      | some ch => Module.flushLoop ch.cap w ch.buf
      | none => .ret () w
    else .ret () w
  match drained with
  | .ret _ w => Module.flushEnd w
  | o => o

/-- The statements `this.logger <- msg; return nil` of `Write`: on a nil or a
full channel the caller is parked in the send. -/
def Module.send (w : World) (msg : Ptr) : Outcome (Option Error) :=
  match w.mod.logger with
  | none => .block .sendLogger w
  | some ch =>
    if ch.buf.length < ch.cap then .ret none (w.setLogger ch.cap (ch.buf ++ [msg]))
    else .block .sendLogger w

/-- The async branch of `Write` up to the send: `this.waiter.Add(1)`. -/
def Module.count (w : World) : Except Panic World :=
  match w.mod.waiter.Add 1 with
  | .error p => .error p
  | .ok wg => .ok (w.setWaiter wg)

/-- The method `Module.Write`. -/
def Module.Write (w : World) (msg : Ptr) : Outcome (Option Error) :=
  if w.mod.config.Level < (w.heap msg).Level then .ret none w
  else
    let w := if (w.heap msg).Time ≤ 0 then w.store msg { w.heap msg with Time := w.now } else w
    if w.mod.config.Sync then
      .ret (Module.write w msg).1 (Module.write w msg).2
    else
      match Module.count w with
      | .error p => .panic p w
      | .ok w => Module.send w msg

/-- The method `Module.Flush`, up to where its caller sleeps: in async mode
`false` is sent on the signal channel and `this.waiter.Wait()` is called; it
returns at once when the counter is zero, and otherwise the caller is asleep
in it. -/
def Module.Flush (w : World) : Outcome Unit :=
  if w.mod.config.Sync = false then
    match w.mod.signal with
    | none => .block .sendSignal w
    | some ch =>
      if ch.buf.length < ch.cap then
        let w := w.setSignal ch.cap (ch.buf ++ [false])
        match w.mod.waiter.Wait with
        | none => .ret () w
        | some wg => .block .wait (w.setWaiter wg)
      else .block .sendSignal w
  else Module.flush w

/-- The rest of `Module.Flush` for a caller asleep in `this.waiter.Wait()`:
once a wake-up is released `Wait` returns, or panics, and `Flush` with it. -/
def Module.FlushWake (w : World) : Outcome Unit :=
  match w.mod.waiter.wake with
  | none => .block .wait w
  | some (.error p) => .panic p w
  | some (.ok wg) => .ret () (w.setWaiter wg)

/-- One pass of `Module.eventLoop`, case `log := <-this.logger`: receive,
`write`, `Done`. -/
def Module.eventLoopLog (w : World) : Outcome Unit :=
  match Module.receive w with
  | some w => Module.done w
  | none => .block .select w

/-- One pass of `Module.eventLoop`, case `signal := <-this.signal`: both
branches call `flush`, and the loop goes on. -/
def Module.eventLoopSignal (w : World) : Outcome Unit :=
  match w.mod.signal with
  | some ⟨cap, _signal :: rest⟩ => Module.flush (w.setSignal cap rest)
  | _ => .block .select w

/-- The method `Module.Terminate`. -/
def Module.Terminate (w : World) : Outcome Unit :=
  let reset (w : World) : World :=
    { w with mod := { w.mod with launched := false, connected := false, initialized := false } }
  match w.mod.connect with
  | some _ =>
    match Module.Flush w with
    | .ret _ w => .ret () (reset (w.call .Close))
    | o => o
  | none => .ret () (reset w)

/-! ## The async pipeline

Producers call `Write`, callers of `Flush` send the signal and wait, and the
one `eventLoop` goroutine serves the two cases of its `select`.  The loop is
followed through its program points: a record is received and written in one
step and `Done` is a step of its own, in the `log` case and in each round of
the drain loop of `flush`.  A caller of `Write` sends in the step that counts
its record, or stands before the send (`Action.Count`) and sends later. -/

/-- The records passed to the connection's `Write`, in call order. -/
def writes : List Call → List Ptr
  | [] => []
  | .Write msg _ :: cs => msg :: writes cs
  | _ :: cs => writes cs

/-- The number of `Close` calls made on the connection. -/
def closes : List Call → Nat
  | [] => 0
  | .Close :: cs => closes cs + 1
  | _ :: cs => closes cs

/-- Where the `eventLoop` goroutine stands: at its `select`; in the `log`
case between `this.write(log)` and `this.waiter.Done()`; in `flush` at the
head of the loop (`if len(this.logger) > 0`); in that loop between
`this.write(log)` and `this.waiter.Done()`. -/
inductive Loop where
  | select
  | logDone
  | flush
  | flushDone
  deriving DecidableEq

/-- The loop stands between a `write` and its `Done`. -/
def Loop.written : Loop → Bool
  | .logDone => true
  | .flushDone => true
  | _ => false

/-- The pipeline: the world, where the loop stands, the records of the
callers of `Write` that stand before `this.logger <- msg` or are parked in
it, and two histories kept for the statements: the records sent on the
channel, in the order the sends completed, and for each caller asleep in
`waiter.Wait()` the records that `Write` had accepted when it called
`Flush`. -/
structure Pipe where
  w : World
  loop : Loop
  parked : List Ptr
  enqueued : List Ptr
  waiting : List (List Ptr)

/-- The steps of the pipeline. -/
inductive Action where
  | Write (msg : Ptr)
  | Count (msg : Ptr)
  | send (i : Nat)
  | eventLoopLog
  | eventLoopSignal
  | flushLog
  | flushEnd
  | Done
  | Flush
  | FlushReturn (i : Nat)
  | Config (config : Config)
  | Configure (env : Env) (value : Value)

/-- One step; `none` when the step cannot be taken in this state (the loop
stands elsewhere, the receive has nothing to take, the send no room, no
wake-up is released) or the program has panicked.  `Config` and `Configure`
keep the module in async mode.

* `Write`: a whole call of `Write`; a caller it parks joins `parked`.
* `Count`: a call of `Write` that passes the gate, up to `waiter.Add(1)`.
* `send`: the send of a caller in `parked` goes through and `Write` returns.
* `eventLoopLog`, `Done`: the `log` case of `eventLoop`.
* `eventLoopSignal`: the `signal` case, up to the head of the loop in `flush`.
* `flushLog`, `Done`: one round of that loop; `flushEnd`: the channel is
  empty, the loop ends, `this.connect.Flush()`, back to the `select`.
* `Flush`: a call of `Flush`; a caller asleep in `Wait` joins `waiting`.
* `FlushReturn`: a caller asleep in `Wait` takes a wake-up and `Flush`
  returns. -/
def Pipe.step (p : Pipe) : Action → Option Pipe
  | .Write msg =>
    if p.w.mod.config.Sync then none
    else
      match Module.Write p.w msg with
      | .ret _ w =>
        some { p with
          w := w
          enqueued :=
            if p.w.mod.config.Level < (p.w.heap msg).Level then p.enqueued
            else p.enqueued ++ [msg] }
      | .block .sendLogger w => some { p with w := w, parked := p.parked ++ [msg] }
      | _ => none
  | .Count msg =>
    if p.w.mod.config.Sync then none
    else if p.w.mod.config.Level < (p.w.heap msg).Level then none
    else
      match Module.count
        (if (p.w.heap msg).Time ≤ 0 then p.w.store msg { p.w.heap msg with Time := p.w.now }
          else p.w) with
      | .ok w => some { p with w := w, parked := p.parked ++ [msg] }
      | .error _ => none
  | .send i =>
    match p.parked[i]? with
    | some msg =>
      match Module.send p.w msg with
      | .ret _ w =>
        some { p with w := w, parked := p.parked.eraseIdx i, enqueued := p.enqueued ++ [msg] }
      | _ => none
    | none => none
  | .eventLoopLog =>
    if p.w.loops = 0 ∨ p.loop ≠ .select then none
    else
      match Module.receive p.w with
      | some w => some { p with w := w, loop := .logDone }
      | none => none
  | .eventLoopSignal =>
    if p.w.loops = 0 ∨ p.loop ≠ .select ∨ p.w.mod.config.Sync = true then none
    else
      match p.w.mod.signal with
      | some ⟨cap, _signal :: rest⟩ => some { p with w := p.w.setSignal cap rest, loop := .flush }
      | _ => none
  | .flushLog =>
    if p.loop ≠ .flush then none
    else
      match Module.receive p.w with
      | some w => some { p with w := w, loop := .flushDone }
      | none => none
  | .flushEnd =>
    if p.loop ≠ .flush then none
    else
      match Module.receive p.w, Module.flushEnd p.w with
      | none, .ret _ w => some { p with w := w, loop := .select }
      | _, _ => none
  | .Done =>
    match p.loop, Module.done p.w with
    | .logDone, .ret _ w => some { p with w := w, loop := .select }
    | .flushDone, .ret _ w => some { p with w := w, loop := .flush }
    | _, _ => none
  | .Flush =>
    if p.w.mod.config.Sync then none
    else
      match Module.Flush p.w with
      | .ret _ w => some { p with w := w }
      | .block .wait w => some { p with w := w, waiting := p.waiting ++ [p.enqueued ++ p.parked] }
      | _ => none
  | .FlushReturn i =>
    if i < p.waiting.length then
      match Module.FlushWake p.w with
      | .ret _ w => some { p with w := w, waiting := p.waiting.eraseIdx i }
      | _ => none
    else none
  | .Config config =>
    if config.Sync then none else some { p with w := Module.Config p.w "" config false }
  | .Configure env value =>
    if (Module.Configure env p.w value).mod.config.Sync then none
    else some { p with w := Module.Configure env p.w value }

/-- A run of steps. -/
def Pipe.run (p : Pipe) : List Action → Option Pipe
  | [] => some p
  | a :: as =>
    match p.step a with
    | some q => q.run as
    | none => none

/-- A module as the package creates it, with some configuration and some
registry: nothing connected, no channel, the wait group at zero, no call
made, no loop started. -/
def Fresh (w : World) : Prop :=
  w.mod.connected = false ∧ w.mod.connect = none ∧ w.mod.logger = none ∧
    w.mod.signal = none ∧ w.mod.waiter = ⟨0, 0, 0⟩ ∧ w.calls = [] ∧ w.loops = 0

/-- The pipeline that `Connect` starts in async mode. -/
def Pipe.start (w : World) : Option Pipe :=
  if w.mod.config.Sync then none
  else
    match Module.Connect w with
    | .ret _ w => some ⟨w, .select, [], [], []⟩
    | _ => none

/-! ## A sample world -/

/-- A sink whose `Write` fails on a record with the body "disk full". -/
def sampleConnect : Connect where
  Open := fun _ => none
  Close := fun _ => none
  Write := fun _ _ log => if log.Body = "disk full" then some (.other "disk full") else none

/-- A driver that hands out `sampleConnect`. -/
def sampleDriver : Driver where
  Connect := fun _ => (some sampleConnect, none)

/-- The package's initial configuration, with the given mode and pool. -/
def sampleConfig (sync : Bool) (pool : Int) : Config :=
  { Driver := "default", Level := 6, Json := false, Sync := sync, Pool := pool,
    Format := "%time% [%level%] %body%", Setting := [] }

/-- A fresh module with `sampleDriver` registered as "default"; the record at
pointer `n` has level `n`, no time yet, and the body "disk full" at pointer 3. -/
def sampleWorld (sync : Bool) (pool : Int) : World where
  mod :=
    { connected := false, initialized := false, launched := false
      config := sampleConfig sync pool
      drivers := fun name => if name = "default" then some (some sampleDriver) else none
      connect := none, waiter := ⟨0, 0, 0⟩, logger := none, signal := none }
  heap := fun n => ⟨"", 0, n, if n = 3 then "disk full" else "hello"⟩
  calls := []
  now := 1650271473000000000
  loops := 0

/-- The sample world after `Connect`. -/
def sampleConnected (sync : Bool) (pool : Int) : World :=
  match Module.Connect (sampleWorld sync pool) with
  | .ret _ w => w
  | _ => sampleWorld sync pool

/-- The record `Write` leaves at `msg` before it branches on the mode: the
time is filled in when it is not positive. -/
def stamped (w : World) (msg : Ptr) : Log :=
  if (w.heap msg).Time ≤ 0 then { w.heap msg with Time := w.now } else w.heap msg

/-- The world a call of `Write` in async mode leaves before its send, on a
wait group whose `Add(1)` does not panic: the time filled in, the counter one
higher. -/
def World.counted (w : World) (msg : Ptr) : World :=
  (w.store msg (stamped w msg)).setWaiter
    { w.mod.waiter with counter := w.mod.waiter.counter + 1 }

/-- What holds in every state of the pipeline: the module is in async mode
with a connection, a running loop and a channel of capacity 100; the records
written followed by the records in the channel are the records sent, in
order; the counter of the wait group is the number of records in the channel
or before it, and one more while the loop stands between a `write` and its
`Done`; no caller sleeps in `Wait` at a counter of zero, and the callers in
`waiting` are those asleep or released; and whatever a waiting `Flush` saw
accepted has been sent or stands before the send. -/
def Pipe.Inv (p : Pipe) : Prop :=
  p.w.mod.config.Sync = false ∧ (∃ connect, p.w.mod.connect = some connect) ∧
    0 < p.w.loops ∧
    (∃ ch, p.w.mod.logger = some ch ∧ ch.cap = 100 ∧ writes p.w.calls ++ ch.buf = p.enqueued ∧
      p.w.mod.waiter.counter =
        (ch.buf.length : Int) + (p.parked.length : Int) + (if p.loop.written then 1 else 0)) ∧
    (p.w.mod.waiter.waiters = 0 ∨ 0 < p.w.mod.waiter.counter) ∧
    p.w.mod.waiter.waiters + p.w.mod.waiter.sema = p.waiting.length ∧
    ∀ snap ∈ p.waiting, ∀ m ∈ snap, m ∈ p.enqueued ∨ m ∈ p.parked

/-- The pipeline of the sample world in async mode, right after `Connect`. -/
def sampleStart (pool : Int) : Pipe :=
  (Pipe.start (sampleWorld false pool)).getD ⟨sampleWorld false pool, .select, [], [], []⟩

/-- The sample pipeline after a run of steps. -/
def samplePipe (pool : Int) (as : List Action) : Pipe :=
  ((sampleStart pool).run as).getD (sampleStart pool)

/-- A second driver, for registering under a name already taken. -/
def otherDriver : Driver where
  Connect := fun _ => (none, some (.other "unavailable"))

/-- A sample environment: the seven labels in the order of the comment on
`Config.Level`, numbered from 0, ASCII upper-casing, and one fixed rendering
of the time. -/
def sampleEnv : Env where
  levels := [(0, "FATAL"), (1, "PANIC"), (2, "WARNING"), (3, "NOTICE"), (4, "INFO"),
    (5, "TRACE"), (6, "DEBUG")]
  ToUpper := String.toUpper
  timeFormat := fun _ => "2022-04-18 08:44:33.000"

/-! ## Field lemmas for the world updates -/

@[simp] theorem World.store_mod (w : World) (msg : Ptr) (log : Log) :
    (w.store msg log).mod = w.mod := rfl

@[simp] theorem World.store_calls (w : World) (msg : Ptr) (log : Log) :
    (w.store msg log).calls = w.calls := rfl

@[simp] theorem World.store_now (w : World) (msg : Ptr) (log : Log) :
    (w.store msg log).now = w.now := rfl

@[simp] theorem World.store_loops (w : World) (msg : Ptr) (log : Log) :
    (w.store msg log).loops = w.loops := rfl

@[simp] theorem World.store_heap_same (w : World) (msg : Ptr) (log : Log) :
    (w.store msg log).heap msg = log := by
  simp [World.store]

@[simp] theorem World.call_mod (w : World) (c : Call) : (w.call c).mod = w.mod := rfl

@[simp] theorem World.call_calls (w : World) (c : Call) :
    (w.call c).calls = w.calls ++ [c] := rfl

@[simp] theorem World.call_heap (w : World) (c : Call) : (w.call c).heap = w.heap := rfl

@[simp] theorem World.call_loops (w : World) (c : Call) : (w.call c).loops = w.loops := rfl

@[simp] theorem World.setWaiter_calls (w : World) (wg : WaitGroup) :
    (w.setWaiter wg).calls = w.calls := rfl

@[simp] theorem World.setWaiter_loops (w : World) (wg : WaitGroup) :
    (w.setWaiter wg).loops = w.loops := rfl

@[simp] theorem World.setWaiter_waiter (w : World) (wg : WaitGroup) :
    (w.setWaiter wg).mod.waiter = wg := rfl

@[simp] theorem World.setWaiter_config (w : World) (wg : WaitGroup) :
    (w.setWaiter wg).mod.config = w.mod.config := rfl

@[simp] theorem World.setWaiter_connect (w : World) (wg : WaitGroup) :
    (w.setWaiter wg).mod.connect = w.mod.connect := rfl

@[simp] theorem World.setWaiter_logger (w : World) (wg : WaitGroup) :
    (w.setWaiter wg).mod.logger = w.mod.logger := rfl

@[simp] theorem World.setWaiter_signal (w : World) (wg : WaitGroup) :
    (w.setWaiter wg).mod.signal = w.mod.signal := rfl

@[simp] theorem World.setLogger_calls (w : World) (cap : Nat) (buf : List Ptr) :
    (w.setLogger cap buf).calls = w.calls := rfl

@[simp] theorem World.setLogger_loops (w : World) (cap : Nat) (buf : List Ptr) :
    (w.setLogger cap buf).loops = w.loops := rfl

@[simp] theorem World.setLogger_logger (w : World) (cap : Nat) (buf : List Ptr) :
    (w.setLogger cap buf).mod.logger = some ⟨cap, buf⟩ := rfl

@[simp] theorem World.setLogger_waiter (w : World) (cap : Nat) (buf : List Ptr) :
    (w.setLogger cap buf).mod.waiter = w.mod.waiter := rfl

@[simp] theorem World.setLogger_config (w : World) (cap : Nat) (buf : List Ptr) :
    (w.setLogger cap buf).mod.config = w.mod.config := rfl

@[simp] theorem World.setLogger_connect (w : World) (cap : Nat) (buf : List Ptr) :
    (w.setLogger cap buf).mod.connect = w.mod.connect := rfl

@[simp] theorem World.setLogger_signal (w : World) (cap : Nat) (buf : List Ptr) :
    (w.setLogger cap buf).mod.signal = w.mod.signal := rfl

@[simp] theorem World.setSignal_calls (w : World) (cap : Nat) (buf : List Bool) :
    (w.setSignal cap buf).calls = w.calls := rfl

@[simp] theorem World.setSignal_loops (w : World) (cap : Nat) (buf : List Bool) :
    (w.setSignal cap buf).loops = w.loops := rfl

@[simp] theorem World.setSignal_logger (w : World) (cap : Nat) (buf : List Bool) :
    (w.setSignal cap buf).mod.logger = w.mod.logger := rfl

@[simp] theorem World.setSignal_waiter (w : World) (cap : Nat) (buf : List Bool) :
    (w.setSignal cap buf).mod.waiter = w.mod.waiter := rfl

@[simp] theorem World.setSignal_config (w : World) (cap : Nat) (buf : List Bool) :
    (w.setSignal cap buf).mod.config = w.mod.config := rfl

@[simp] theorem World.setSignal_connect (w : World) (cap : Nat) (buf : List Bool) :
    (w.setSignal cap buf).mod.connect = w.mod.connect := rfl

@[simp] theorem World.setConfig_calls (w : World) (config : Config) :
    (w.setConfig config).calls = w.calls := rfl

@[simp] theorem World.setConfig_loops (w : World) (config : Config) :
    (w.setConfig config).loops = w.loops := rfl

@[simp] theorem World.setConfig_config (w : World) (config : Config) :
    (w.setConfig config).mod.config = config := rfl

@[simp] theorem World.setConfig_connect (w : World) (config : Config) :
    (w.setConfig config).mod.connect = w.mod.connect := rfl

@[simp] theorem World.setConfig_logger (w : World) (config : Config) :
    (w.setConfig config).mod.logger = w.mod.logger := rfl

@[simp] theorem World.setConfig_waiter (w : World) (config : Config) :
    (w.setConfig config).mod.waiter = w.mod.waiter := rfl

@[simp] theorem World.setWaiter_heap (w : World) (wg : WaitGroup) :
    (w.setWaiter wg).heap = w.heap := rfl

@[simp] theorem World.setLogger_heap (w : World) (cap : Nat) (buf : List Ptr) :
    (w.setLogger cap buf).heap = w.heap := rfl

@[simp] theorem World.setSignal_heap (w : World) (cap : Nat) (buf : List Bool) :
    (w.setSignal cap buf).heap = w.heap := rfl

@[simp] theorem World.setConfig_heap (w : World) (config : Config) :
    (w.setConfig config).heap = w.heap := rfl

@[simp] theorem World.setConfig_signal (w : World) (config : Config) :
    (w.setConfig config).mod.signal = w.mod.signal := rfl

@[simp] theorem World.setSignal_signal (w : World) (cap : Nat) (buf : List Bool) :
    (w.setSignal cap buf).mod.signal = some ⟨cap, buf⟩ := rfl

/-! ## `write` and the sync path of `Write` -/

theorem write_connected (w : World) (msg : Ptr) (connect : Connect)
    (hc : w.mod.connect = some connect) :
    Module.write w msg =
      (connect.Write w.calls msg { w.heap msg with format := w.mod.config.Format },
        (w.store msg { w.heap msg with format := w.mod.config.Format }).call
          (.Write msg { w.heap msg with format := w.mod.config.Format })) := by
  simp [Module.write, hc]

theorem write_no_connection (w : World) (msg : Ptr) (hc : w.mod.connect = none) :
    Module.write w msg = (some .errInvalidLogConnection, w) := by
  simp [Module.write, hc]

theorem Write_sync_connected (w : World) (msg : Ptr) (connect : Connect)
    (hs : w.mod.config.Sync = true) (hc : w.mod.connect = some connect)
    (hl : ¬ w.mod.config.Level < (w.heap msg).Level) :
    Module.Write w msg =
      .ret (connect.Write w.calls msg { stamped w msg with format := w.mod.config.Format })
        ((w.store msg { stamped w msg with format := w.mod.config.Format }).call
          (.Write msg { stamped w msg with format := w.mod.config.Format })) := by
  unfold Module.Write
  rw [if_neg hl]
  by_cases ht : (w.heap msg).Time ≤ 0
  · have hc' : (w.store msg { w.heap msg with Time := w.now }).mod.connect = some connect := hc
    simp only [ht, if_true, World.store_mod, hs, write_connected _ _ _ hc', stamped,
      World.store_heap_same, World.store_calls]
    simp [World.store]
  · simp [ht, hs, write_connected _ _ _ hc, stamped]

theorem Write_sync_no_connection (w : World) (msg : Ptr)
    (hs : w.mod.config.Sync = true) (hc : w.mod.connect = none)
    (hl : ¬ w.mod.config.Level < (w.heap msg).Level) :
    Module.Write w msg = .ret (some .errInvalidLogConnection) (w.store msg (stamped w msg)) := by
  unfold Module.Write
  rw [if_neg hl]
  by_cases ht : (w.heap msg).Time ≤ 0
  · have hc' : (w.store msg { w.heap msg with Time := w.now }).mod.connect = none := hc
    simp only [ht, if_true, World.store_mod, hs, write_no_connection _ _ hc', stamped]
  · simp [ht, hs, write_no_connection _ _ hc, stamped, World.store]

/-! ## `Configure` and the pool size -/

theorem configureDriver_Pool (config : Map) (c : Config) :
    (configureDriver config c).Pool = c.Pool := by
  unfold configureDriver
  split <;> rfl

theorem foldl_level_Pool (env : Env) (level : String) (ls : List (Level × String)) :
    ∀ c : Config,
      (ls.foldl (fun c e => if env.ToUpper level = e.2 then { c with Level := e.1 } else c) c).Pool
        = c.Pool := by
  induction ls with
  | nil => intro c; rfl
  | cons e es ih =>
    intro c
    simp only [List.foldl_cons]
    rw [ih]
    split <;> rfl

theorem configureLevel_Pool (env : Env) (config : Map) (c : Config) :
    (configureLevel env config c).Pool = c.Pool := by
  unfold configureLevel
  split
  · exact foldl_level_Pool env _ _ c
  · rfl

theorem configureJson_Pool (config : Map) (c : Config) :
    (configureJson config c).Pool = c.Pool := by
  unfold configureJson
  split <;> rfl

theorem configureSync_Pool (config : Map) (c : Config) :
    (configureSync config c).Pool = c.Pool := by
  unfold configureSync
  split <;> rfl

theorem configureFormat_Pool (config : Map) (c : Config) :
    (configureFormat config c).Pool = c.Pool := by
  unfold configureFormat
  split <;> rfl

theorem configureSetting_Pool (config : Map) (c : Config) :
    (configureSetting config c).Pool = c.Pool := by
  unfold configureSetting
  split <;> rfl

theorem configurePool64_kept (config : Map) (c : Config)
    (h : ∀ n, Map.get config "pool" = some (.int64 n) → n ≤ 0) :
    configurePool64 config c = c := by
  unfold configurePool64
  split
  next pool hp => rw [if_neg (by have := h pool hp; omega)]
  next => rfl

theorem configurePool_kept (config : Map) (c : Config)
    (h : ∀ n, Map.get config "pool" = some (.int n) → n ≤ 0) :
    configurePool config c = c := by
  unfold configurePool
  split
  next pool hp => rw [if_neg (by have := h pool hp; omega)]
  next => rfl

/-- Configure keeps the current `Pool` when the "log" map has no "pool" entry
of type `int64` or `int` with a positive value. -/
theorem Configure_keeps_Pool (env : Env) (w : World) (global : Map)
    (hp : ∀ config, Map.get global "log" = some (.map config) →
      (∀ n, Map.get config "pool" = some (.int64 n) → n ≤ 0) ∧
        ∀ n, Map.get config "pool" = some (.int n) → n ≤ 0) :
    (Module.Configure env w (.any (.map global))).mod.config.Pool = w.mod.config.Pool := by
  have hnil : (∀ n, Map.get [] "pool" = some (.int64 n) → n ≤ 0) ∧
      ∀ n, Map.get [] "pool" = some (.int n) → n ≤ 0 :=
    ⟨fun n h => by simp [Map.get] at h, fun n h => by simp [Map.get] at h⟩
  have key : ∀ config : Map, ((∀ n, Map.get config "pool" = some (.int64 n) → n ≤ 0) ∧
      ∀ n, Map.get config "pool" = some (.int n) → n ≤ 0) →
      (configureSetting config (configurePool config (configurePool64 config
        (configureFormat config (configureSync config (configureJson config
          (configureLevel env config (configureDriver config w.mod.config)))))))).Pool
        = w.mod.config.Pool := by
    intro config ⟨h64, hint⟩
    rw [configureSetting_Pool, configurePool_kept _ _ hint, configurePool64_kept _ _ h64,
      configureFormat_Pool, configureSync_Pool, configureJson_Pool, configureLevel_Pool,
      configureDriver_Pool]
  simp only [Module.Configure, World.setConfig_config]
  split
  next vvv hv => exact key vvv (hp vvv hv)
  next => exact key [] hnil

/-! ## The wait group -/

theorem WaitGroup.Add_one (wg : WaitGroup) (h0 : 0 ≤ wg.counter)
    (hr : wg.waiters = 0 ∨ 0 < wg.counter) :
    wg.Add 1 = .ok { wg with counter := wg.counter + 1 } := by
  unfold WaitGroup.Add
  have h1 : ¬ wg.counter + 1 < 0 := by omega
  have h2 : ¬ (wg.waiters ≠ 0 ∧ (1 : Int) > 0 ∧ wg.counter + 1 = 1) := by
    rintro ⟨a, _, c⟩
    rcases hr with hr | hr
    · exact a hr
    · omega
  have h3 : wg.counter + 1 > 0 ∨ wg.waiters = 0 := Or.inl (by omega)
  simp only [h1, h2, h3, if_false, if_true]

theorem WaitGroup.Add_neg_one (wg : WaitGroup) (h : 1 ≤ wg.counter) :
    ∃ wg', wg.Add (-1) = .ok wg' ∧ wg'.counter = wg.counter - 1 ∧
      (wg'.waiters = 0 ∨ 0 < wg'.counter) ∧ wg'.waiters + wg'.sema = wg.waiters + wg.sema := by
  unfold WaitGroup.Add
  have h1 : ¬ wg.counter + -1 < 0 := by omega
  have h2 : ¬ (wg.waiters ≠ 0 ∧ (-1 : Int) > 0 ∧ wg.counter + -1 = -1) := by
    rintro ⟨_, b, _⟩
    omega
  simp only [h1, h2, if_false]
  by_cases h3 : wg.counter + -1 > 0 ∨ wg.waiters = 0
  · refine ⟨{ wg with counter := wg.counter + -1 }, by rw [if_pos h3], ?_, ?_, rfl⟩
    · show wg.counter + -1 = wg.counter - 1
      omega
    · show wg.waiters = 0 ∨ 0 < wg.counter + -1
      rcases h3 with h3 | h3
      · exact Or.inr h3
      · exact Or.inl h3
  · refine ⟨⟨0, 0, wg.sema + wg.waiters⟩, by rw [if_neg h3], ?_, Or.inl rfl, ?_⟩
    · simp only [not_or, not_lt] at h3
      show (0 : Int) = wg.counter - 1
      omega
    · show 0 + (wg.sema + wg.waiters) = wg.waiters + wg.sema
      omega

theorem WaitGroup.wake_ok (wg wg' : WaitGroup) (h : wg.wake = some (.ok wg')) :
    wg.counter = 0 ∧ wg.waiters = 0 ∧ 0 < wg.sema ∧ wg' = { wg with sema := wg.sema - 1 } := by
  unfold WaitGroup.wake at h
  by_cases h1 : wg.sema = 0
  · simp [h1] at h
  · by_cases h2 : wg.counter ≠ 0 ∨ wg.waiters ≠ 0
    · simp [h1, h2] at h
    · simp only [h1, h2, if_false, Option.some.injEq, Except.ok.injEq] at h
      simp only [not_or, not_not] at h2
      exact ⟨h2.1, h2.2, by omega, h.symm⟩

/-! ## The async path: receive, `Done`, `Add`, send -/

theorem writes_append (a b : List Call) : writes (a ++ b) = writes a ++ writes b := by
  induction a with
  | nil => rfl
  | cons c cs ih => cases c <;> simp [writes, ih]

/-- The statements `log := <-this.logger; this.write(log)` on a module with a
connection: the world they leave, in full. -/
theorem receive_eq (w : World) (cap : Nat) (msg : Ptr) (rest : List Ptr) (connect : Connect)
    (hc : w.mod.connect = some connect) (hl : w.mod.logger = some ⟨cap, msg :: rest⟩) :
    Module.receive w =
      some (((w.setLogger cap rest).store msg { w.heap msg with format := w.mod.config.Format }).call
        (.Write msg { w.heap msg with format := w.mod.config.Format })) := by
  have hc' : (w.setLogger cap rest).mod.connect = some connect := hc
  simp only [Module.receive, hl, write_connected _ msg connect hc']
  rfl

theorem receive_none (w : World) (h : Module.receive w = none) :
    w.mod.logger = none ∨ ∃ cap, w.mod.logger = some ⟨cap, []⟩ := by
  unfold Module.receive at h
  split at h
  · cases h
  · next hne =>
    cases hl : w.mod.logger with
    | none => exact Or.inl rfl
    | some ch =>
      obtain ⟨cap, buf⟩ := ch
      cases buf with
      | nil => exact Or.inr ⟨cap, rfl⟩
      | cons m r => exact absurd hl (hne cap m r)

theorem done_eq (w : World) (h : 1 ≤ w.mod.waiter.counter) :
    ∃ wg, Module.done w = .ret () (w.setWaiter wg) ∧ wg.counter = w.mod.waiter.counter - 1 ∧
      (wg.waiters = 0 ∨ 0 < wg.counter) ∧
      wg.waiters + wg.sema = w.mod.waiter.waiters + w.mod.waiter.sema := by
  obtain ⟨wg, e, a1, a2, a3⟩ := WaitGroup.Add_neg_one w.mod.waiter h
  exact ⟨wg, by simp only [Module.done, e], a1, a2, a3⟩

theorem store_stamped (w : World) (msg : Ptr) :
    (if (w.heap msg).Time ≤ 0 then w.store msg { w.heap msg with Time := w.now } else w) =
      w.store msg (stamped w msg) := by
  by_cases ht : (w.heap msg).Time ≤ 0
  · simp [ht, stamped]
  · simp [ht, stamped, World.store]

theorem count_eq (w : World) (msg : Ptr) (h0 : 0 ≤ w.mod.waiter.counter)
    (hr : w.mod.waiter.waiters = 0 ∨ 0 < w.mod.waiter.counter) :
    Module.count (w.store msg (stamped w msg)) = .ok (w.counted msg) := by
  have e := WaitGroup.Add_one w.mod.waiter h0 hr
  simp only [Module.count, World.store_mod, e]
  rfl

/-- In async mode a call of `Write` that passes the gate is `Add(1)` and then
the send. -/
theorem Write_async_eq (w : World) (msg : Ptr) (hs : w.mod.config.Sync = false)
    (hg : ¬ w.mod.config.Level < (w.heap msg).Level) (h0 : 0 ≤ w.mod.waiter.counter)
    (hr : w.mod.waiter.waiters = 0 ∨ 0 < w.mod.waiter.counter) :
    Module.Write w msg = Module.send (w.counted msg) msg := by
  unfold Module.Write
  rw [if_neg hg]
  simp only [store_stamped, World.store_mod, hs, Bool.false_eq_true, if_false,
    count_eq w msg h0 hr]

theorem send_room (w : World) (msg : Ptr) (ch : Chan Ptr) (hl : w.mod.logger = some ch)
    (hr : ch.buf.length < ch.cap) :
    Module.send w msg = .ret none (w.setLogger ch.cap (ch.buf ++ [msg])) := by
  simp only [Module.send, hl, hr, if_true]

theorem send_full (w : World) (msg : Ptr) (ch : Chan Ptr) (hl : w.mod.logger = some ch)
    (hr : ¬ ch.buf.length < ch.cap) :
    Module.send w msg = .block .sendLogger w := by
  simp only [Module.send, hl, hr, if_false]

theorem send_nil (w : World) (msg : Ptr) (hl : w.mod.logger = none) :
    Module.send w msg = .block .sendLogger w := by
  simp only [Module.send, hl]

theorem send_ret (w w' : World) (msg : Ptr) (err : Option Error)
    (h : Module.send w msg = .ret err w') :
    err = none ∧ ∃ ch, w.mod.logger = some ch ∧ ch.buf.length < ch.cap ∧
      w' = w.setLogger ch.cap (ch.buf ++ [msg]) := by
  cases hl : w.mod.logger with
  | none => rw [send_nil w msg hl] at h; cases h
  | some ch =>
    by_cases hr : ch.buf.length < ch.cap
    · rw [send_room w msg ch hl hr] at h
      cases h
      exact ⟨rfl, ch, rfl, hr, rfl⟩
    · rw [send_full w msg ch hl hr] at h
      cases h

/-! ## The async path: `Flush`, `Connect`, `Configure` -/

/-- In async mode a call of `Flush` is parked in the send of the signal, or
returns at once at a counter of zero, or leaves its caller asleep in `Wait`
at a counter that is not zero; the signal channel apart it changes only the
number of waiters. -/
theorem Flush_async (w : World) (hs : w.mod.config.Sync = false) :
    (Module.Flush w = .block .sendSignal w) ∨
      (∃ cap buf, Module.Flush w = .ret () (w.setSignal cap buf) ∧ w.mod.waiter.counter = 0) ∨
      ∃ cap buf, Module.Flush w = .block .wait
          ((w.setSignal cap buf).setWaiter { w.mod.waiter with waiters := w.mod.waiter.waiters + 1 }) ∧
        w.mod.waiter.counter ≠ 0 := by
  unfold Module.Flush
  rw [if_pos hs]
  cases hsig : w.mod.signal with
  | none => exact Or.inl rfl
  | some ch =>
    by_cases hr : ch.buf.length < ch.cap
    · right
      by_cases hz : w.mod.waiter.counter = 0
      · exact Or.inl ⟨ch.cap, ch.buf ++ [false], by simp [hr, hz, WaitGroup.Wait], hz⟩
      · exact Or.inr ⟨ch.cap, ch.buf ++ [false], by simp [hr, hz, WaitGroup.Wait], hz⟩
    · left
      simp [hr]

/-- A call of `Flush` in async mode returns only at a counter of zero. -/
theorem Flush_ret_zero (w w' : World) (hs : w.mod.config.Sync = false)
    (h : Module.Flush w = .ret () w') :
    w.mod.waiter.counter = 0 ∧ w'.calls = w.calls := by
  rcases Flush_async w hs with e | ⟨cap, buf, e, hz⟩ | ⟨cap, buf, e, _⟩
  · rw [e] at h; cases h
  · rw [e] at h; cases h; exact ⟨hz, rfl⟩
  · rw [e] at h; cases h

/-- A caller asleep in `Wait` returns from `Flush` only at a counter of zero,
with no caller counted asleep, by taking a wake-up. -/
theorem FlushWake_ret (w w' : World) (h : Module.FlushWake w = .ret () w') :
    w.mod.waiter.counter = 0 ∧ w.mod.waiter.waiters = 0 ∧ 0 < w.mod.waiter.sema ∧
      w' = w.setWaiter { w.mod.waiter with sema := w.mod.waiter.sema - 1 } := by
  unfold Module.FlushWake at h
  cases hk : w.mod.waiter.wake with
  | none => simp [hk] at h
  | some r =>
    cases r with
    | error e => simp [hk] at h
    | ok wg =>
      simp only [hk, Outcome.ret.injEq, true_and] at h
      obtain ⟨a1, a2, a3, a4⟩ := WaitGroup.wake_ok _ _ hk
      exact ⟨a1, a2, a3, by rw [← h, a4]⟩

theorem Configure_eq_setConfig (env : Env) (w : World) (value : Value) :
    ∃ c, Module.Configure env w value = w.setConfig c := by
  cases value with
  | config cfg => exact ⟨cfg, rfl⟩
  | any a =>
    cases a with
    | map global => exact ⟨_, rfl⟩
    | str _ => exact ⟨w.mod.config, rfl⟩
    | bool _ => exact ⟨w.mod.config, rfl⟩
    | int64 _ => exact ⟨w.mod.config, rfl⟩
    | int _ => exact ⟨w.mod.config, rfl⟩
    | other => exact ⟨w.mod.config, rfl⟩

theorem Connect_ret (w w' : World) (h1 : w.mod.connected = false)
    (h : Module.Connect w = .ret () w') :
    w'.calls = w.calls ++ [.Open] ∧ w'.mod.waiter = w.mod.waiter ∧
      w'.mod.logger = some ⟨100, []⟩ ∧ w'.mod.signal = some ⟨1, []⟩ ∧
      w'.mod.config = w.mod.config ∧ (∃ connect, w'.mod.connect = some connect) ∧
      w'.loops = (if w.mod.config.Sync = false then w.loops + 1 else w.loops) ∧
      w'.heap = w.heap ∧ w'.mod.connected = true := by
  unfold Module.Connect at h
  simp only [h1, Bool.false_eq_true, if_false] at h
  cases hd : w.mod.drivers w.mod.config.Driver with
  | none => simp [hd] at h
  | some d =>
    cases d with
    | none => simp [hd] at h
    | some driver =>
      simp only [hd] at h
      rcases hc : driver.Connect w.mod.config with ⟨c, e⟩
      cases e with
      | some err => simp [hc] at h
      | none =>
        cases c with
        | none => simp [hc] at h
        | some connect =>
          simp only [hc] at h
          cases ho : connect.Open w.calls with
          | some err => simp [ho] at h
          | none =>
            simp only [ho, Outcome.ret.injEq, true_and] at h
            subst h
            simp

theorem Pipe.start_spec (w : World) (p : Pipe) (hf : Fresh w) (h : Pipe.start w = some p) :
    p.loop = .select ∧ p.parked = [] ∧ p.enqueued = [] ∧ p.waiting = [] ∧ p.w.calls = [.Open] ∧
      p.w.mod.waiter = ⟨0, 0, 0⟩ ∧ p.w.mod.logger = some ⟨100, []⟩ ∧
      p.w.mod.config = w.mod.config ∧ w.mod.config.Sync = false ∧
      (∃ connect, p.w.mod.connect = some connect) ∧ p.w.loops = 1 := by
  obtain ⟨h1, _, _, _, h5, h6, h7⟩ := hf
  unfold Pipe.start at h
  by_cases hs : w.mod.config.Sync = true
  · simp [hs] at h
  · have hs' : w.mod.config.Sync = false := by simpa using hs
    simp only [hs', Bool.false_eq_true, if_false] at h
    cases ho : Module.Connect w with
    | ret v w' =>
      simp only [ho, Option.some.injEq] at h
      subst h
      obtain ⟨a1, a2, a3, _, a5, a6, a7, _⟩ := Connect_ret w w' h1 ho
      simp [a1, a2, a3, a5, a6, a7, h5, h6, h7, hs']
    | panic e w' => simp [ho] at h
    | block e w' => simp [ho] at h

/-! ## The invariant of the pipeline -/

theorem Pipe.Inv_start (w : World) (p : Pipe) (hf : Fresh w) (h : Pipe.start w = some p) :
    p.Inv := by
  obtain ⟨h0, h1, h2, h3, h4, h5, h6, h7, h8, h9, h10⟩ := Pipe.start_spec w p hf h
  refine ⟨by rw [h7, h8], h9, by omega, ⟨_, h6, rfl, ?_, ?_⟩, ?_, ?_, ?_⟩
  · simp [h4, h2, writes]
  · simp [h5, h1, h0, Loop.written]
  · simp [h5]
  · simp [h5, h3]
  · simp [h3]

theorem mem_eraseIdx_or {α : Type} (l : List α) (i : Nat) (x m : α) (h : l[i]? = some x)
    (hm : m ∈ l) : m ∈ l.eraseIdx i ∨ m = x := by
  obtain ⟨j, hj⟩ := List.mem_iff_getElem?.mp hm
  by_cases hji : j = i
  · subst hji
    rw [h] at hj
    exact Or.inr (Option.some.inj hj).symm
  · exact Or.inl (List.mem_eraseIdx_iff_getElem?.mpr ⟨j, hji, hj⟩)

theorem length_eraseIdx_of_getElem? {α : Type} (l : List α) (i : Nat) (x : α)
    (h : l[i]? = some x) : ((l.eraseIdx i).length : Int) = (l.length : Int) - 1 := by
  obtain ⟨hi, _⟩ := List.getElem?_eq_some.mp h
  rw [List.length_eraseIdx_of_lt hi]
  omega

/-- The invariant looks at the world through these fields only. -/
theorem Pipe.Inv_of_fields (p q : Pipe) (hp : p.Inv)
    (h1 : q.w.mod.config.Sync = false) (h2 : q.w.mod.connect = p.w.mod.connect)
    (h3 : q.w.loops = p.w.loops) (h4 : q.w.mod.logger = p.w.mod.logger)
    (h5 : writes q.w.calls = writes p.w.calls) (h6 : q.w.mod.waiter = p.w.mod.waiter)
    (h7 : q.loop.written = p.loop.written) (h8 : q.parked = p.parked)
    (h9 : q.enqueued = p.enqueued) (h10 : q.waiting = p.waiting) : q.Inv := by
  unfold Pipe.Inv at hp ⊢
  rw [h1, h2, h3, h4, h5, h6, h7, h8, h9, h10]
  exact ⟨rfl, hp.2⟩

theorem Pipe.Inv_step (p q : Pipe) (a : Action) (hp : p.Inv) (h : p.step a = some q) :
    q.Inv := by
  obtain ⟨hs, ⟨connect, hc⟩, hloop, ⟨ch, hl, hcap, hq, hw⟩, hreg, hsl, hwait⟩ := id hp
  have h0 : 0 ≤ p.w.mod.waiter.counter := by
    rw [hw]
    split <;> omega
  cases a with
  | Write msg =>
    simp only [Pipe.step, hs, Bool.false_eq_true, if_false] at h
    by_cases hg : p.w.mod.config.Level < (p.w.heap msg).Level
    · have e : Module.Write p.w msg = .ret none p.w := by simp [Module.Write, hg]
      simp only [e, hg, if_true, Option.some.injEq] at h
      subst h
      exact hp
    · have hl' : (p.w.counted msg).mod.logger = some ch := hl
      rw [Write_async_eq p.w msg hs hg h0 hreg] at h
      by_cases hr : ch.buf.length < ch.cap
      · simp only [send_room _ msg ch hl' hr, hg, if_false, Option.some.injEq] at h
        subst h
        refine ⟨hs, ⟨connect, hc⟩, hloop, ⟨_, rfl, hcap, ?_, ?_⟩, ?_, hsl, ?_⟩
        · simp [World.counted, ← hq]
        · simp only [World.counted, World.setLogger_waiter, World.setWaiter_waiter, hw,
            List.length_append, List.length_singleton]
          push_cast
          omega
        · right
          simp only [World.counted, World.setLogger_waiter, World.setWaiter_waiter]
          omega
        · intro snap hsnap m hm
          rcases hwait snap hsnap m hm with h1 | h1
          · exact Or.inl (List.mem_append_left _ h1)
          · exact Or.inr h1
      · simp only [send_full _ msg ch hl' hr, Option.some.injEq] at h
        subst h
        refine ⟨hs, ⟨connect, hc⟩, hloop, ⟨ch, hl, hcap, hq, ?_⟩, ?_, hsl, ?_⟩
        · simp only [World.counted, World.setWaiter_waiter, hw, List.length_append,
            List.length_singleton]
          push_cast
          omega
        · right
          simp only [World.counted, World.setWaiter_waiter]
          omega
        · intro snap hsnap m hm
          rcases hwait snap hsnap m hm with h1 | h1
          · exact Or.inl h1
          · exact Or.inr (List.mem_append_left _ h1)
  | Count msg =>
    simp only [Pipe.step, hs, Bool.false_eq_true, if_false] at h
    by_cases hg : p.w.mod.config.Level < (p.w.heap msg).Level
    · simp [hg] at h
    · simp only [hg, if_false, store_stamped, count_eq p.w msg h0 hreg, Option.some.injEq] at h
      subst h
      refine ⟨hs, ⟨connect, hc⟩, hloop, ⟨ch, hl, hcap, hq, ?_⟩, ?_, hsl, ?_⟩
      · simp only [World.counted, World.setWaiter_waiter, hw, List.length_append,
          List.length_singleton]
        push_cast
        omega
      · right
        simp only [World.counted, World.setWaiter_waiter]
        omega
      · intro snap hsnap m hm
        rcases hwait snap hsnap m hm with h1 | h1
        · exact Or.inl h1
        · exact Or.inr (List.mem_append_left _ h1)
  | send i =>
    simp only [Pipe.step] at h
    cases hi : p.parked[i]? with
    | none => simp [hi] at h
    | some msg =>
      simp only [hi] at h
      by_cases hr : ch.buf.length < ch.cap
      · simp only [send_room _ msg ch hl hr, Option.some.injEq] at h
        subst h
        refine ⟨hs, ⟨connect, hc⟩, hloop, ⟨_, rfl, hcap, ?_, ?_⟩, hreg, hsl, ?_⟩
        · simp [← hq]
        · simp only [World.setLogger_waiter, hw, List.length_append, List.length_singleton,
            length_eraseIdx_of_getElem? _ _ _ hi]
          push_cast
          omega
        · intro snap hsnap m hm
          rcases hwait snap hsnap m hm with h1 | h1
          · exact Or.inl (List.mem_append_left _ h1)
          · rcases mem_eraseIdx_or _ _ _ _ hi h1 with h2 | h2
            · exact Or.inr h2
            · exact Or.inl (by simp [h2])
      · simp [send_full _ msg ch hl hr] at h
  | eventLoopLog =>
    simp only [Pipe.step] at h
    by_cases hg : p.w.loops = 0 ∨ p.loop ≠ .select
    · simp [hg] at h
    · simp only [hg, if_false] at h
      have hsel : p.loop = .select := by
        by_contra hne
        exact hg (Or.inr hne)
      obtain ⟨cap, buf⟩ := ch
      cases buf with
      | nil => simp [Module.receive, hl] at h
      | cons msg rest =>
        simp only [receive_eq p.w cap msg rest connect hc hl, Option.some.injEq] at h
        subst h
        refine ⟨hs, ⟨connect, hc⟩, hloop, ⟨_, rfl, hcap, ?_, ?_⟩, hreg, hsl, hwait⟩
        · simp [writes_append, writes, ← hq]
        · simp only [hsel, Loop.written] at hw
          simp only [World.call_mod, World.store_mod, World.setLogger_waiter, hw, Loop.written,
            List.length_cons]
          push_cast
          simp
          omega
  | eventLoopSignal =>
    simp only [Pipe.step] at h
    by_cases hg : p.w.loops = 0 ∨ p.loop ≠ .select ∨ p.w.mod.config.Sync = true
    · simp [hg] at h
    · simp only [hg, if_false] at h
      have hsel : p.loop = .select := by
        by_contra hne
        exact hg (Or.inr (Or.inl hne))
      cases hsig : p.w.mod.signal with
      | none => simp [hsig] at h
      | some sg =>
        obtain ⟨scap, sbuf⟩ := sg
        cases sbuf with
        | nil => simp [hsig] at h
        | cons b rest =>
          simp only [hsig, Option.some.injEq] at h
          subst h
          exact Pipe.Inv_of_fields p _ hp hs rfl rfl rfl rfl rfl (by simp [hsel, Loop.written])
            rfl rfl rfl
  | flushLog =>
    simp only [Pipe.step] at h
    by_cases hg : p.loop ≠ .flush
    · simp [hg] at h
    · simp only [hg, if_false] at h
      have hsel : p.loop = .flush := by
        by_contra hne
        exact hg hne
      obtain ⟨cap, buf⟩ := ch
      cases buf with
      | nil => simp [Module.receive, hl] at h
      | cons msg rest =>
        simp only [receive_eq p.w cap msg rest connect hc hl, Option.some.injEq] at h
        subst h
        refine ⟨hs, ⟨connect, hc⟩, hloop, ⟨_, rfl, hcap, ?_, ?_⟩, hreg, hsl, hwait⟩
        · simp [writes_append, writes, ← hq]
        · simp only [hsel, Loop.written] at hw
          simp only [World.call_mod, World.store_mod, World.setLogger_waiter, hw, Loop.written,
            List.length_cons]
          push_cast
          simp
          omega
  | flushEnd =>
    simp only [Pipe.step] at h
    by_cases hg : p.loop ≠ .flush
    · simp [hg] at h
    · simp only [hg, if_false] at h
      have hsel : p.loop = .flush := by
        by_contra hne
        exact hg hne
      cases hrec : Module.receive p.w with
      | some w' => simp [hrec] at h
      | none =>
        simp only [hrec, Module.flushEnd, hc, Option.some.injEq] at h
        subst h
        exact Pipe.Inv_of_fields p _ hp hs rfl rfl rfl (by simp [writes_append, writes]) rfl
          (by simp [hsel, Loop.written]) rfl rfl rfl
  | Done =>
    simp only [Pipe.step] at h
    have key : p.loop.written = true → ∀ l : Loop, l.written = false →
        ∀ w', Module.done p.w = .ret () w' → q = { p with w := w', loop := l } → q.Inv := by
      intro hwr l hl' w' e hq'
      rw [hwr] at hw
      simp only [if_true] at hw
      obtain ⟨wg, e1, a1, a2, a3⟩ := done_eq p.w (by rw [hw]; omega)
      rw [e1] at e
      cases e
      subst hq'
      refine ⟨hs, ⟨connect, hc⟩, hloop, ⟨ch, hl, hcap, hq, ?_⟩, a2, ?_, hwait⟩
      · simp only [World.setWaiter_waiter, a1, hw, hl']
        simp
      · simp only [World.setWaiter_waiter, a3, hsl]
    cases hlp : p.loop with
    | select => simp [hlp] at h
    | flush => simp [hlp] at h
    | logDone =>
      cases hd : Module.done p.w with
      | ret v w' =>
        simp only [hlp, hd, Option.some.injEq] at h
        exact key (by rw [hlp]; rfl) .select rfl w' hd h.symm
      | panic e w' => simp [hlp, hd] at h
      | block e w' => simp [hlp, hd] at h
    | flushDone =>
      cases hd : Module.done p.w with
      | ret v w' =>
        simp only [hlp, hd, Option.some.injEq] at h
        exact key (by rw [hlp]; rfl) .flush rfl w' hd h.symm
      | panic e w' => simp [hlp, hd] at h
      | block e w' => simp [hlp, hd] at h
  | Flush =>
    simp only [Pipe.step, hs, Bool.false_eq_true, if_false] at h
    rcases Flush_async p.w hs with e | ⟨cap, buf, e, hz⟩ | ⟨cap, buf, e, hz⟩
    · simp [e] at h
    · simp only [e, Option.some.injEq] at h
      subst h
      exact Pipe.Inv_of_fields p _ hp hs rfl rfl rfl rfl rfl rfl rfl rfl rfl
    · simp only [e, Option.some.injEq] at h
      subst h
      refine ⟨hs, ⟨connect, hc⟩, hloop, ⟨ch, hl, hcap, hq, hw⟩, ?_, ?_, ?_⟩
      · right
        simp only [World.setWaiter_waiter]
        omega
      · simp only [World.setWaiter_waiter, List.length_append, List.length_singleton]
        omega
      · intro snap hsnap m hm
        rcases List.mem_append.mp hsnap with h1 | h1
        · exact hwait snap h1 m hm
        · simp only [List.mem_singleton] at h1
          subst h1
          exact List.mem_append.mp hm
  | FlushReturn i =>
    simp only [Pipe.step] at h
    by_cases hi : i < p.waiting.length
    · simp only [hi, if_true] at h
      cases hk : Module.FlushWake p.w with
      | ret v w' =>
        simp only [hk, Option.some.injEq] at h
        obtain ⟨a1, a2, a3, a4⟩ := FlushWake_ret p.w w' hk
        subst h a4
        refine ⟨hs, ⟨connect, hc⟩, hloop, ⟨ch, hl, hcap, hq, hw⟩, Or.inl a2, ?_,
          fun snap hsnap m hm => hwait snap (List.mem_of_mem_eraseIdx hsnap) m hm⟩
        simp only [World.setWaiter_waiter, List.length_eraseIdx_of_lt hi]
        omega
      | panic e w' => simp [hk] at h
      | block e w' => simp [hk] at h
    · simp [hi] at h
  | Config config =>
    simp only [Pipe.step] at h
    by_cases hcs : config.Sync = true
    · simp [hcs] at h
    · simp only [hcs, Bool.false_eq_true, if_false, Option.some.injEq] at h
      subst h
      exact Pipe.Inv_of_fields p _ hp (by simpa [Module.Config] using hcs) rfl rfl rfl rfl rfl
        rfl rfl rfl rfl
  | Configure env value =>
    simp only [Pipe.step] at h
    by_cases hcs : (Module.Configure env p.w value).mod.config.Sync = true
    · simp [hcs] at h
    · simp only [hcs, Bool.false_eq_true, if_false, Option.some.injEq] at h
      subst h
      obtain ⟨c, e⟩ := Configure_eq_setConfig env p.w value
      exact Pipe.Inv_of_fields p _ hp (by simpa using hcs) (by simp [e]) (by simp [e])
        (by simp [e]) (by simp [e]) (by simp [e]) rfl rfl rfl rfl

theorem Pipe.Inv_run (as : List Action) : ∀ p q : Pipe, p.Inv → p.run as = some q → q.Inv := by
  induction as with
  | nil =>
    intro p q hp h
    simp only [Pipe.run, Option.some.injEq] at h
    exact h ▸ hp
  | cons a as ih =>
    intro p q hp h
    simp only [Pipe.run] at h
    cases hstep : p.step a with
    | none => simp [hstep] at h
    | some r =>
      rw [hstep] at h
      exact ih r q (Pipe.Inv_step p r a hp hstep) h

/-! ## Progress: the loop drains the channel and every waiting `Flush` returns -/

theorem Pipe.run_append (as bs : List Action) :
    ∀ p : Pipe, p.run (as ++ bs) = (p.run as).bind (fun q => q.run bs) := by
  induction as with
  | nil => intro p; rfl
  | cons a as ih =>
    intro p
    simp only [List.cons_append, Pipe.run]
    cases p.step a with
    | none => rfl
    | some r => exact ih r

theorem Pipe.run_trans (p q r : Pipe) (as bs : List Action) (h1 : p.run as = some q)
    (h2 : q.run bs = some r) : p.run (as ++ bs) = some r := by
  rw [Pipe.run_append, h1]
  exact h2

/-- A loop that stands before `Done` takes that step. -/
theorem Pipe.finish_Done (p : Pipe) (hp : p.Inv) :
    ∃ bs q, p.run bs = some q ∧ q.Inv ∧ q.loop.written = false ∧
      q.w.mod.logger = p.w.mod.logger ∧ q.parked = p.parked ∧ q.waiting = p.waiting := by
  by_cases hwr : p.loop.written = true
  · obtain ⟨_, _, _, ⟨ch, _, _, _, hw⟩, _⟩ := id hp
    rw [hwr] at hw
    simp only [if_true] at hw
    obtain ⟨wg, e, _⟩ := done_eq p.w (by rw [hw]; omega)
    cases hlp : p.loop with
    | select => rw [hlp] at hwr; cases hwr
    | flush => rw [hlp] at hwr; cases hwr
    | logDone =>
      have hstep : p.step .Done = some { p with w := p.w.setWaiter wg, loop := .select } := by
        simp only [Pipe.step, hlp, e]
      exact ⟨[.Done], _, by simp only [Pipe.run, hstep], Pipe.Inv_step p _ _ hp hstep, rfl, rfl,
        rfl, rfl⟩
    | flushDone =>
      have hstep : p.step .Done = some { p with w := p.w.setWaiter wg, loop := .flush } := by
        simp only [Pipe.step, hlp, e]
      exact ⟨[.Done], _, by simp only [Pipe.run, hstep], Pipe.Inv_step p _ _ hp hstep, rfl, rfl,
        rfl, rfl⟩
  · exact ⟨[], p, rfl, hp, by simpa using hwr, rfl, rfl, rfl⟩

/-- From the `select` or from the head of the loop in `flush`, the loop
empties the channel and comes back to the `select`. -/
theorem Pipe.drain (n : Nat) :
    ∀ p : Pipe, p.Inv → p.loop.written = false →
      (∃ ch, p.w.mod.logger = some ch ∧ ch.buf.length = n) →
      ∃ bs q, p.run bs = some q ∧ q.Inv ∧ q.loop = .select ∧
        q.w.mod.logger = some ⟨100, []⟩ ∧ q.parked = p.parked ∧ q.waiting = p.waiting := by
  induction n with
  | zero =>
    intro p hp hwr ⟨ch, hl, hn⟩
    obtain ⟨_, ⟨connect, hc⟩, _, ⟨ch', hl', hcap, _, _⟩, _⟩ := id hp
    rw [hl] at hl'
    cases Option.some.inj hl'
    obtain ⟨cap, buf⟩ := ch
    simp only [List.length_eq_zero] at hn
    simp only at hcap
    subst hn hcap
    cases hlp : p.loop with
    | logDone => rw [hlp] at hwr; cases hwr
    | flushDone => rw [hlp] at hwr; cases hwr
    | select => exact ⟨[], p, rfl, hp, hlp, hl, rfl, rfl⟩
    | flush =>
      have hstep : p.step .flushEnd = some { p with w := p.w.call .Flush, loop := .select } := by
        simp only [Pipe.step, hlp, Module.receive, hl, Module.flushEnd, hc]
        simp
      exact ⟨[.flushEnd], _, by simp only [Pipe.run, hstep], Pipe.Inv_step p _ _ hp hstep, rfl, hl,
        rfl, rfl⟩
  | succ n ih =>
    intro p hp hwr ⟨ch, hl, hn⟩
    obtain ⟨_, ⟨connect, hc⟩, hloop, ⟨ch', hl', hcap, _, hw⟩, _⟩ := id hp
    rw [hl] at hl'
    cases Option.some.inj hl'
    obtain ⟨cap, buf⟩ := ch
    cases buf with
    | nil => simp at hn
    | cons msg rest =>
      have hrec := receive_eq p.w cap msg rest connect hc hl
      have key : ∀ (a : Action) (l : Loop), l.written = true →
          p.step a =
            some { p with
              w := ((p.w.setLogger cap rest).store msg
                { p.w.heap msg with format := p.w.mod.config.Format }).call
                (.Write msg { p.w.heap msg with format := p.w.mod.config.Format })
              loop := l } →
          ∃ bs q, p.run bs = some q ∧ q.Inv ∧ q.loop = .select ∧
            q.w.mod.logger = some ⟨100, []⟩ ∧ q.parked = p.parked ∧ q.waiting = p.waiting := by
        intro a l hlw hstep
        have hi1 := Pipe.Inv_step p _ _ hp hstep
        obtain ⟨b1, q1, r1, i1, w1, l1, p1, t1⟩ := Pipe.finish_Done _ hi1
        obtain ⟨b2, q2, r2, i2, s2, l2, p2, t2⟩ :=
          ih q1 i1 w1 ⟨⟨cap, rest⟩, by rw [l1]; rfl, by simpa using hn⟩
        refine ⟨a :: (b1 ++ b2), q2, ?_, i2, s2, l2, by rw [p2, p1], by rw [t2, t1]⟩
        simp only [Pipe.run, hstep]
        exact Pipe.run_trans _ _ _ _ _ r1 r2
      cases hlp : p.loop with
      | logDone => rw [hlp] at hwr; cases hwr
      | flushDone => rw [hlp] at hwr; cases hwr
      | select =>
        refine key .eventLoopLog .logDone rfl ?_
        simp only [Pipe.step, hlp, Nat.ne_of_gt hloop, hrec]
        simp
      | flush =>
        refine key .flushLog .flushDone rfl ?_
        simp only [Pipe.step, hlp, hrec]
        simp

/-- Every record that stands before the send gets through and is written. -/
theorem Pipe.settle (k : Nat) :
    ∀ p : Pipe, p.Inv → p.parked.length = k →
      ∃ bs q, p.run bs = some q ∧ q.Inv ∧ q.loop = .select ∧
        q.w.mod.logger = some ⟨100, []⟩ ∧ q.parked = [] ∧ q.waiting = p.waiting := by
  induction k with
  | zero =>
    intro p hp hk
    obtain ⟨b1, q1, r1, i1, w1, l1, p1, t1⟩ := Pipe.finish_Done p hp
    obtain ⟨_, _, _, ⟨ch, hl, _⟩, _⟩ := id i1
    obtain ⟨b2, q2, r2, i2, s2, l2, p2, t2⟩ := Pipe.drain ch.buf.length q1 i1 w1 ⟨ch, hl, rfl⟩
    exact ⟨b1 ++ b2, q2, Pipe.run_trans _ _ _ _ _ r1 r2, i2, s2, l2,
      by rw [p2, p1]; exact List.length_eq_zero.mp hk, by rw [t2, t1]⟩
  | succ k ih =>
    intro p hp hk
    obtain ⟨b1, q1, r1, i1, w1, l1, p1, t1⟩ := Pipe.finish_Done p hp
    obtain ⟨_, _, _, ⟨ch, hl, _⟩, _⟩ := id i1
    obtain ⟨b2, q2, r2, i2, s2, l2, p2, t2⟩ := Pipe.drain ch.buf.length q1 i1 w1 ⟨ch, hl, rfl⟩
    cases hpar : q2.parked with
    | nil => rw [p2, p1] at hpar; simp [hpar] at hk
    | cons msg rest =>
      have hstep : q2.step (.send 0) =
          some { q2 with
            w := q2.w.setLogger 100 ([] ++ [msg]), parked := q2.parked.eraseIdx 0,
            enqueued := q2.enqueued ++ [msg] } := by
        have hs0 : q2.parked[0]? = some msg := by rw [hpar]; simp
        simp only [Pipe.step, hs0, send_room q2.w msg ⟨100, []⟩ l2 (by decide)]
      have hlen : (q2.parked.eraseIdx 0).length = k := by
        have : (msg :: rest).length = k + 1 := by rw [← hpar, p2, p1, hk]
        rw [hpar]
        simpa using this
      obtain ⟨b3, q3, r3, i3, s3, l3, p3, t3⟩ := ih _ (Pipe.Inv_step q2 _ _ i2 hstep) hlen
      refine ⟨b1 ++ (b2 ++ (.send 0 :: b3)), q3, ?_, i3, s3, l3, p3, by rw [t3, t2, t1]⟩
      refine Pipe.run_trans _ _ _ _ _ r1 (Pipe.run_trans _ _ _ _ _ r2 ?_)
      simp only [Pipe.run, hstep, r3]

/-- At a counter of zero every caller asleep in `Wait` takes its wake-up and
returns. -/
theorem Pipe.wake_all (n : Nat) :
    ∀ p : Pipe, p.Inv → p.w.mod.waiter.counter = 0 → p.waiting.length = n →
      ∃ bs q, p.run bs = some q ∧ q.Inv ∧ q.w.mod.waiter.counter = 0 ∧ q.waiting = [] := by
  induction n with
  | zero =>
    intro p hp hz hn
    exact ⟨[], p, rfl, hp, hz, List.length_eq_zero.mp hn⟩
  | succ n ih =>
    intro p hp hz hn
    obtain ⟨_, _, _, _, hreg, hsl, _⟩ := id hp
    have hwt : p.w.mod.waiter.waiters = 0 := by
      rcases hreg with h | h
      · exact h
      · omega
    have hsem : p.w.mod.waiter.sema ≠ 0 := by omega
    have hstep : p.step (.FlushReturn 0) =
        some { p with
          w := p.w.setWaiter { p.w.mod.waiter with sema := p.w.mod.waiter.sema - 1 }
          waiting := p.waiting.eraseIdx 0 } := by
      have hi : 0 < p.waiting.length := by omega
      simp only [Pipe.step, hi, if_true, Module.FlushWake, WaitGroup.wake, hsem, if_false, hz,
        hwt]
      simp
    obtain ⟨bs, q, r, i, z, t⟩ := ih _ (Pipe.Inv_step p _ _ hp hstep) hz
      (by simp only [List.length_eraseIdx_of_lt (show 0 < p.waiting.length by omega)]; omega)
    exact ⟨.FlushReturn 0 :: bs, q, by simp only [Pipe.run, hstep, r], i, z, t⟩

/-- From every state of the pipeline some run of the loop and of the parked
callers brings the counter to zero and lets every waiting `Flush` return. -/
theorem Pipe.progress (p : Pipe) (hp : p.Inv) :
    ∃ bs q, p.run bs = some q ∧ q.Inv ∧ q.w.mod.waiter.counter = 0 ∧ q.waiting = [] := by
  obtain ⟨b1, q1, r1, i1, s1, l1, p1, _⟩ := Pipe.settle p.parked.length p hp rfl
  obtain ⟨_, _, _, ⟨ch, hl, _, _, hw⟩, _⟩ := id i1
  have hz : q1.w.mod.waiter.counter = 0 := by
    rw [l1] at hl
    cases Option.some.inj hl
    rw [hw, p1, s1]
    rfl
  obtain ⟨b2, q2, r2, i2, z2, t2⟩ := Pipe.wake_all q1.waiting.length q1 i1 hz rfl
  exact ⟨b1 ++ b2, q2, Pipe.run_trans _ _ _ _ _ r1 r2, i2, z2, t2⟩

/-! ## The whole passes of `eventLoop` are runs of the steps -/

theorem write_logger (w : World) (msg : Ptr) :
    (Module.write w msg).2.mod.logger = w.mod.logger := by
  unfold Module.write
  split <;> rfl

theorem done_logger (w w' : World) (h : Module.done w = .ret () w') :
    w'.mod.logger = w.mod.logger := by
  unfold Module.done at h
  split at h
  · cases h
  · cases h
    rfl

/-- A whole pass of the `log` case is the step `eventLoopLog` followed by the
step `Done`. -/
theorem Pipe.eventLoopLog_run (p : Pipe) (w' : World) (hlp : p.loop = .select)
    (hloops : 0 < p.w.loops) (h : Module.eventLoopLog p.w = .ret () w') :
    p.run [.eventLoopLog, .Done] = some { p with w := w' } := by
  unfold Module.eventLoopLog at h
  cases hrec : Module.receive p.w with
  | none => simp [hrec] at h
  | some w1 =>
    simp only [hrec] at h
    have s1 : p.step .eventLoopLog = some { p with w := w1, loop := .logDone } := by
      simp only [Pipe.step, hlp, Nat.ne_of_gt hloops, hrec]
      simp
    have s2 : Pipe.step { p with w := w1, loop := .logDone } .Done =
        some { p with w := w', loop := .select } := by
      simp only [Pipe.step, h]
    simp only [Pipe.run, s1, s2, ← hlp]

/-- The loop of `flush`, run as a whole on the records the channel holds, is
a run of the steps `flushLog` and `Done`. -/
theorem Pipe.flushLoop_run (cap : Nat) (buf : List Ptr) :
    ∀ (p : Pipe) (w' : World), p.loop = .flush → p.w.mod.logger = some ⟨cap, buf⟩ →
      Module.flushLoop cap p.w buf = .ret () w' →
      ∃ bs, p.run bs = some { p with w := w' } ∧ Module.receive w' = none := by
  induction buf with
  | nil =>
    intro p w' _ hl h
    simp only [Module.flushLoop, Outcome.ret.injEq, true_and] at h
    subst h
    exact ⟨[], rfl, by simp [Module.receive, hl]⟩
  | cons msg rest ih =>
    intro p w' hlp hl h
    simp only [Module.flushLoop] at h
    cases hd : Module.done (Module.write (p.w.setLogger cap rest) msg).2 with
    | panic e w1 => simp [hd] at h
    | block e w1 => simp [hd] at h
    | ret v w1 =>
      simp only [hd] at h
      have hrec : Module.receive p.w = some (Module.write (p.w.setLogger cap rest) msg).2 := by
        simp only [Module.receive, hl]
      have s1 : p.step .flushLog =
          some { p with w := (Module.write (p.w.setLogger cap rest) msg).2, loop := .flushDone } := by
        simp only [Pipe.step, hlp, hrec]
        simp
      have s2 : Pipe.step
          { p with w := (Module.write (p.w.setLogger cap rest) msg).2, loop := .flushDone } .Done =
          some { p with w := w1, loop := .flush } := by
        simp only [Pipe.step, hd]
      have hl1 : w1.mod.logger = some ⟨cap, rest⟩ := by
        rw [done_logger _ _ hd, write_logger]
        rfl
      obtain ⟨bs, r, e⟩ := ih { p with w := w1, loop := .flush } w' rfl hl1 h
      exact ⟨.flushLog :: .Done :: bs, by simp only [Pipe.run, s1, s2, r, hlp], e⟩

/-- A whole pass of the `signal` case in async mode is a run of the steps:
`eventLoopSignal`, the rounds of the loop in `flush`, `flushEnd`. -/
theorem Pipe.eventLoopSignal_run (p : Pipe) (w' : World) (hlp : p.loop = .select)
    (hloops : 0 < p.w.loops) (hs : p.w.mod.config.Sync = false)
    (hl : ∃ ch, p.w.mod.logger = some ch)
    (h : Module.eventLoopSignal p.w = .ret () w') :
    ∃ bs, p.run bs = some { p with w := w' } := by
  obtain ⟨⟨cap, buf⟩, hl⟩ := hl
  unfold Module.eventLoopSignal at h
  split at h
  next scap sig rest hsig =>
    have s1 : p.step .eventLoopSignal =
        some { p with w := p.w.setSignal scap rest, loop := .flush } := by
      simp only [Pipe.step, hlp, Nat.ne_of_gt hloops, hs, hsig]
      simp
    have hl1 : (p.w.setSignal scap rest).mod.logger = some ⟨cap, buf⟩ := hl
    have hs1 : (p.w.setSignal scap rest).mod.config.Sync = false := hs
    simp only [Module.flush, hs1, hl1, if_true] at h
    cases hf : Module.flushLoop cap (p.w.setSignal scap rest) buf with
    | panic e w1 => simp [hf] at h
    | block e w1 => simp [hf] at h
    | ret v w1 =>
      simp only [hf] at h
      obtain ⟨bs, r, hrec⟩ :=
        Pipe.flushLoop_run cap buf { p with w := p.w.setSignal scap rest, loop := .flush } w1 rfl
          hl1 hf
      have s3 : Pipe.step { p with w := w1, loop := .flush } .flushEnd =
          some { p with w := w', loop := .select } := by
        simp only [Pipe.step, hrec, h]
        simp
      refine ⟨.eventLoopSignal :: (bs ++ [.flushEnd]), ?_⟩
      simp only [Pipe.run, s1]
      rw [Pipe.run_append, r]
      simp only [Option.bind, Pipe.run, s3, ← hlp]
  next => cases h

/-- A caller of `Flush` woken at a counter of zero panics when a record is
counted before it runs: in the sample pipeline, after a write, a `Flush`, a
pass of the loop and a second write, the woken `Wait` finds the counter at
one ("WaitGroup is reused before previous Wait has returned"). -/
theorem FlushWake_reused :
    ∃ p, (sampleStart 1000).run [.Write 1, .Flush, .eventLoopLog, .Done, .Write 2] = some p ∧
      p.waiting = [[1]] ∧ Module.FlushWake p.w = .panic .waitGroupReused p.w ∧
      p.step (.FlushReturn 0) = none :=
  ⟨_, rfl, rfl, rfl, rfl⟩

/-! ## The level gate -/

/-- C1: for every module state, sync or async, and every record whose Level is
greater than `config.Level`, `Module.Write` returns nil and leaves the world
as it was: no call on the connection, nothing sent on the logger channel, the
counter of `waiter` unchanged. -/
theorem Write_drops_below_threshold (w : World) (msg : Ptr)
    (h : w.mod.config.Level < (w.heap msg).Level) :
    Module.Write w msg = .ret none w := by
  simp [Module.Write, h]

/-- The sample module, async and sync: the record at pointer 7 (level 7 against
the threshold 6) is dropped. -/
theorem Write_drops_below_threshold_witness :
    Module.Write (sampleConnected false 1000) 7 = .ret none (sampleConnected false 1000) ∧
      Module.Write (sampleConnected true 1000) 7 = .ret none (sampleConnected true 1000) :=
  ⟨Write_drops_below_threshold (sampleConnected false 1000) 7 (by decide),
    Write_drops_below_threshold (sampleConnected true 1000) 7 (by decide)⟩

/-! ## FIFO order and the outstanding count -/

/-- C2: in async mode, in every state the pipeline reaches from `Connect` on a
fresh module (by `Write`, a parked send getting through, either case of
`eventLoop`, `Flush`, a change of configuration), the records passed to the
connection's `Write`, followed by the records in the logger channel, are the
records sent on the channel, in the order they were sent. -/
theorem pipeline_fifo (w : World) (as : List Action) (p0 p : Pipe) (hf : Fresh w)
    (h0 : Pipe.start w = some p0) (h : p0.run as = some p) :
    ∃ ch, p.w.mod.logger = some ch ∧ writes p.w.calls ++ ch.buf = p.enqueued := by
  obtain ⟨_, _, _, ⟨ch, hl, _, hq, _⟩, _⟩ := Pipe.Inv_run as p0 p (Pipe.Inv_start w p0 hf h0) h
  exact ⟨ch, hl, hq⟩

/-- The sample pipeline after three writes (one dropped by the gate), one pass of
the loop and a fourth write. -/
theorem pipeline_fifo_witness :
    ∃ ch, (samplePipe 1000 [.Write 2, .Write 7, .Write 1, .eventLoopLog, .Write 4]).w.mod.logger
        = some ch ∧
      writes (samplePipe 1000 [.Write 2, .Write 7, .Write 1, .eventLoopLog, .Write 4]).w.calls
        ++ ch.buf = [2, 1, 4] :=
  pipeline_fifo (sampleWorld false 1000) [.Write 2, .Write 7, .Write 1, .eventLoopLog, .Write 4]
    (sampleStart 1000) (samplePipe 1000 [.Write 2, .Write 7, .Write 1, .eventLoopLog, .Write 4])
    ⟨rfl, rfl, rfl, rfl, rfl, rfl, rfl⟩ rfl rfl

/-- C3, as amended: in async mode, in every state the pipeline reaches, the
counter of `waiter` is the number of records accepted (sent on the channel
or standing before the send) and not yet passed to the connection's `Write`,
plus one while the loop stands between a `write` and its `Done`; a call of
`Flush` returns, at once or after its sleep in `waiter.Wait()`, only when
every record accepted before the call has been passed to the connection's
`Write`; and some run of the loop brings the counter to zero and lets every
waiting `Flush` return. -/
theorem Flush_waits_for_accepted (w : World) (as : List Action) (p0 p : Pipe) (hf : Fresh w)
    (h0 : Pipe.start w = some p0) (h : p0.run as = some p) :
    p.w.mod.waiter.counter =
        (p.enqueued.length : Int) + (p.parked.length : Int) - ((writes p.w.calls).length : Int)
          + (if p.loop.written then 1 else 0) ∧
      (∀ w', Module.Flush p.w = .ret () w' →
        ∀ m, m ∈ p.enqueued ∨ m ∈ p.parked → m ∈ writes w'.calls) ∧
      (∀ w' snap, Module.FlushWake p.w = .ret () w' → snap ∈ p.waiting →
        ∀ m ∈ snap, m ∈ writes w'.calls) ∧
      ∃ bs q, p.run bs = some q ∧ q.w.mod.waiter.counter = 0 ∧ q.waiting = [] := by
  have hp := Pipe.Inv_run as p0 p (Pipe.Inv_start w p0 hf h0) h
  obtain ⟨hs, _, _, ⟨ch, hl, _, hq, hw⟩, _, _, hwait⟩ := id hp
  have hzero : p.w.mod.waiter.counter = 0 →
      ∀ m, m ∈ p.enqueued ∨ m ∈ p.parked → m ∈ writes p.w.calls := by
    intro hz m hm
    rw [hz] at hw
    have hb : ch.buf = [] := by
      have : (ch.buf.length : Int) = 0 := by split at hw <;> omega
      exact List.length_eq_zero.mp (by exact_mod_cast this)
    have hpk : p.parked = [] := by
      have : (p.parked.length : Int) = 0 := by split at hw <;> omega
      exact List.length_eq_zero.mp (by exact_mod_cast this)
    rcases hm with h1 | h1
    · rw [← hq, hb, List.append_nil] at h1
      exact h1
    · rw [hpk] at h1
      cases h1
  refine ⟨?_, ?_, ?_, ?_⟩
  · rw [hw, ← hq, List.length_append]
    push_cast
    omega
  · intro w' hret m hm
    obtain ⟨hz, hcalls⟩ := Flush_ret_zero p.w w' hs hret
    rw [hcalls]
    exact hzero hz m hm
  · intro w' snap hret hsnap m hm
    obtain ⟨hz, _, _, e⟩ := FlushWake_ret p.w w' hret
    rw [e]
    exact hzero hz m (hwait snap hsnap m hm)
  · obtain ⟨bs, q, hrun, _, hz, hwt⟩ := Pipe.progress p hp
    exact ⟨bs, q, hrun, hz, hwt⟩

/-- The sample pipeline: two writes, a `Flush` that sleeps in `Wait`, the loop
taking both records; the wake-up is released and `Flush` returns with records
1 and 2 written. -/
theorem Flush_waits_for_accepted_witness :
    1 ∈ writes (samplePipe 1000
        [.Write 1, .Write 2, .Flush, .eventLoopLog, .Done, .eventLoopLog, .Done,
          .FlushReturn 0]).w.calls ∧
      2 ∈ writes (samplePipe 1000
        [.Write 1, .Write 2, .Flush, .eventLoopLog, .Done, .eventLoopLog, .Done,
          .FlushReturn 0]).w.calls :=
  have h := (Flush_waits_for_accepted (sampleWorld false 1000)
    [.Write 1, .Write 2, .Flush, .eventLoopLog, .Done, .eventLoopLog, .Done] (sampleStart 1000)
    (samplePipe 1000 [.Write 1, .Write 2, .Flush, .eventLoopLog, .Done, .eventLoopLog, .Done])
    ⟨rfl, rfl, rfl, rfl, rfl, rfl, rfl⟩ rfl rfl).2.2.1
    (samplePipe 1000
      [.Write 1, .Write 2, .Flush, .eventLoopLog, .Done, .eventLoopLog, .Done, .FlushReturn 0]).w
    [1, 2] rfl (List.mem_singleton.mpr rfl)
  ⟨h 1 (by decide), h 2 (by decide)⟩

/-- C3 fails as stated: in the sample pipeline, once the loop has passed record
1 to the connection's `Write` and before it calls `Done`, the counter is 1
while no accepted record is left unwritten. -/
theorem counter_above_unwritten_before_Done :
    Fresh (sampleWorld false 1000) ∧
      Pipe.start (sampleWorld false 1000) = some (sampleStart 1000) ∧
      ∃ p, (sampleStart 1000).run [.Write 1, .eventLoopLog] = some p ∧
        p.w.mod.waiter.counter = 1 ∧ p.enqueued = [1] ∧ p.parked = [] ∧
        writes p.w.calls = [1] ∧
        p.w.mod.waiter.counter ≠
          (p.enqueued.length : Int) + (p.parked.length : Int) - ((writes p.w.calls).length : Int) :=
  ⟨⟨rfl, rfl, rfl, rfl, rfl, rfl, rfl⟩, rfl, _, rfl, rfl, rfl, rfl, rfl, by decide⟩

/-! ## A missing connection -/

/-- C4, as amended: for every record that passes the level gate, in sync mode
`Module.Write` on a module without a connection fails with
`errInvalidLogConnection`, calls no connection and leaves the module as it
was.  In async mode, on a wait group with a counter that is not negative and
no caller asleep in `Wait` at a counter of zero, `Module.Write` does not look
at the connection:
it fills in the time, adds one to the counter and sends the record; with
room in the channel the record is appended and `Write` returns nil, and on a
nil channel (a module never connected) or a full one the caller is parked in
the send; no call is made on the connection. -/
theorem Write_without_connection (w : World) (msg : Ptr)
    (hg : ¬ w.mod.config.Level < (w.heap msg).Level) :
    (w.mod.config.Sync = true → w.mod.connect = none →
      ∃ w', Module.Write w msg = .ret (some .errInvalidLogConnection) w' ∧
        w'.calls = w.calls ∧ w'.mod = w.mod) ∧
      (w.mod.config.Sync = false → 0 ≤ w.mod.waiter.counter →
        (w.mod.waiter.waiters = 0 ∨ 0 < w.mod.waiter.counter) →
        (w.counted msg).calls = w.calls ∧
        (w.counted msg).mod.waiter.counter = w.mod.waiter.counter + 1 ∧
        (w.mod.logger = none → Module.Write w msg = .block .sendLogger (w.counted msg)) ∧
        (∀ ch, w.mod.logger = some ch → ch.buf.length < ch.cap →
          Module.Write w msg =
            .ret none ((w.counted msg).setLogger ch.cap (ch.buf ++ [msg]))) ∧
        ∀ ch, w.mod.logger = some ch → ¬ ch.buf.length < ch.cap →
          Module.Write w msg = .block .sendLogger (w.counted msg)) := by
  refine ⟨fun hs hc => ⟨_, Write_sync_no_connection w msg hs hc hg, rfl, rfl⟩, ?_⟩
  intro hs h0 hw
  have e := Write_async_eq w msg hs hg h0 hw
  refine ⟨rfl, rfl, ?_, ?_, ?_⟩
  · intro hl
    rw [e]
    exact send_nil _ msg hl
  · intro ch hl hr
    rw [e]
    exact send_room _ msg ch hl hr
  · intro ch hl hr
    rw [e]
    exact send_full _ msg ch hl hr

/-- The fresh sample module in sync and in async mode, and the connected one in
async mode, with the record at pointer 1. -/
theorem Write_without_connection_witness :
    (∃ w', Module.Write (sampleWorld true 1000) 1 = .ret (some .errInvalidLogConnection) w' ∧
        w'.calls = [] ∧ w'.mod = (sampleWorld true 1000).mod) ∧
      Module.Write (sampleWorld false 1000) 1 =
        .block .sendLogger ((sampleWorld false 1000).counted 1) ∧
      Module.Write (sampleConnected false 1000) 1 =
        .ret none (((sampleConnected false 1000).counted 1).setLogger 100 ([] ++ [1])) :=
  ⟨(Write_without_connection (sampleWorld true 1000) 1 (by decide)).1 rfl rfl,
    ((Write_without_connection (sampleWorld false 1000) 1 (by decide)).2 rfl (by decide)
      (Or.inl rfl)).2.2.1 rfl,
    ((Write_without_connection (sampleConnected false 1000) 1 (by decide)).2 rfl (by decide)
      (Or.inl rfl)).2.2.2.1 ⟨100, []⟩ rfl (by decide)⟩

/-- C4 fails as stated: in async mode a record that passes the gate, written
to the fresh sample module (never connected), does not get
`errInvalidLogConnection`; and written after `Connect` and `Terminate` have
returned, it is queued and `Write` returns nil. -/
theorem Write_async_reports_no_missing_connection :
    Fresh (sampleWorld false 1000) ∧
      ¬ (sampleWorld false 1000).mod.config.Level < ((sampleWorld false 1000).heap 1).Level ∧
      (∀ w', Module.Write (sampleWorld false 1000) 1 ≠ .ret (some .errInvalidLogConnection) w') ∧
      ∃ w1 w2 w3, Module.Connect (sampleWorld false 1000) = .ret () w1 ∧
        Module.Terminate w1 = .ret () w2 ∧ Module.Write w2 1 = .ret none w3 ∧
        w3.mod.logger = some ⟨100, [1]⟩ := by
  refine ⟨⟨rfl, rfl, rfl, rfl, rfl, rfl, rfl⟩, by decide, ?_, ?_⟩
  · intro w' h
    have e : Module.Write (sampleWorld false 1000) 1 =
        .block .sendLogger ((sampleWorld false 1000).counted 1) := rfl
    rw [e] at h
    cases h
  · exact ⟨_, _, _, rfl, rfl, rfl, rfl⟩

/-! ## Terminate -/

/-- C5 fails on the code: on the connected sample module in sync mode two
calls of `Terminate` both return, and each flushes and closes the
connection; `Close` is called twice. -/
theorem Terminate_twice_closes_twice :
    ∃ w1 w2 w3, Module.Connect (sampleWorld true 1000) = .ret () w1 ∧
      Module.Terminate w1 = .ret () w2 ∧ Module.Terminate w2 = .ret () w3 ∧
      w2.calls = [.Open, .Flush, .Close] ∧
      w3.calls = [.Open, .Flush, .Close, .Flush, .Close] ∧ closes w3.calls = 2 :=
  ⟨_, _, _, rfl, rfl, rfl, by decide, by decide, by decide⟩

/-! ## The format a record carries -/

/-- The calls one step of the pipeline makes on the connection: the two steps
that receive a record pass it to `Write` with the format configured in the
state they start from; no other step calls `Write`. -/
theorem Pipe.step_writes (p q : Pipe) (a : Action) (hp : p.Inv) (h : p.step a = some q) :
    ((a = .eventLoopLog ∨ a = .flushLog) ∧
        ∃ cap msg rest, p.w.mod.logger = some ⟨cap, msg :: rest⟩ ∧
          q.w.calls =
            p.w.calls ++ [.Write msg { p.w.heap msg with format := p.w.mod.config.Format }] ∧
          q.w.heap msg = { p.w.heap msg with format := p.w.mod.config.Format }) ∨
      (a ≠ .eventLoopLog ∧ a ≠ .flushLog ∧ writes q.w.calls = writes p.w.calls) := by
  obtain ⟨hs, ⟨connect, hc⟩, hloop, ⟨ch, hl, hcap, hq, hw⟩, hreg, hsl, hwait⟩ := id hp
  have h0 : 0 ≤ p.w.mod.waiter.counter := by
    rw [hw]
    split <;> omega
  have received : (a = .eventLoopLog ∨ a = .flushLog) →
      ∀ w', Module.receive p.w = some w' → q.w = w' →
        ∃ cap msg rest, p.w.mod.logger = some ⟨cap, msg :: rest⟩ ∧
          q.w.calls =
            p.w.calls ++ [.Write msg { p.w.heap msg with format := p.w.mod.config.Format }] ∧
          q.w.heap msg = { p.w.heap msg with format := p.w.mod.config.Format } := by
    intro _ w' hrec hqw
    obtain ⟨cap, buf⟩ := ch
    cases buf with
    | nil => simp [Module.receive, hl] at hrec
    | cons msg rest =>
      rw [receive_eq p.w cap msg rest connect hc hl] at hrec
      cases hrec
      exact ⟨cap, msg, rest, hl, by rw [hqw]; rfl, by rw [hqw]; simp⟩
  cases a with
  | eventLoopLog =>
    left
    simp only [Pipe.step] at h
    split at h
    · cases h
    · cases hrec : Module.receive p.w with
      | none => simp [hrec] at h
      | some w' =>
        simp only [hrec, Option.some.injEq] at h
        exact ⟨Or.inl rfl, received (Or.inl rfl) w' hrec (by rw [← h])⟩
  | flushLog =>
    left
    simp only [Pipe.step] at h
    split at h
    · cases h
    · cases hrec : Module.receive p.w with
      | none => simp [hrec] at h
      | some w' =>
        simp only [hrec, Option.some.injEq] at h
        exact ⟨Or.inr rfl, received (Or.inr rfl) w' hrec (by rw [← h])⟩
  | Write msg =>
    refine Or.inr ⟨fun e => Action.noConfusion e, fun e => Action.noConfusion e, ?_⟩
    simp only [Pipe.step, hs, Bool.false_eq_true, if_false] at h
    by_cases hg : p.w.mod.config.Level < (p.w.heap msg).Level
    · have e : Module.Write p.w msg = .ret none p.w := by simp [Module.Write, hg]
      simp only [e, Option.some.injEq] at h
      rw [← h]
    · have hl' : (p.w.counted msg).mod.logger = some ch := hl
      rw [Write_async_eq p.w msg hs hg h0 hreg] at h
      by_cases hr : ch.buf.length < ch.cap
      · simp only [send_room _ msg ch hl' hr, Option.some.injEq] at h
        rw [← h]
        rfl
      · simp only [send_full _ msg ch hl' hr, Option.some.injEq] at h
        rw [← h]
        rfl
  | Count msg =>
    refine Or.inr ⟨fun e => Action.noConfusion e, fun e => Action.noConfusion e, ?_⟩
    simp only [Pipe.step, hs, Bool.false_eq_true, if_false] at h
    by_cases hg : p.w.mod.config.Level < (p.w.heap msg).Level
    · simp [hg] at h
    · simp only [hg, if_false, store_stamped, count_eq p.w msg h0 hreg, Option.some.injEq] at h
      rw [← h]
      rfl
  | send i =>
    refine Or.inr ⟨fun e => Action.noConfusion e, fun e => Action.noConfusion e, ?_⟩
    simp only [Pipe.step] at h
    cases hi : p.parked[i]? with
    | none => simp [hi] at h
    | some msg =>
      simp only [hi] at h
      by_cases hr : ch.buf.length < ch.cap
      · simp only [send_room _ msg ch hl hr, Option.some.injEq] at h
        rw [← h]
        rfl
      · simp [send_full _ msg ch hl hr] at h
  | eventLoopSignal =>
    refine Or.inr ⟨fun e => Action.noConfusion e, fun e => Action.noConfusion e, ?_⟩
    simp only [Pipe.step] at h
    split at h
    · cases h
    · split at h
      · simp only [Option.some.injEq] at h
        rw [← h]
        rfl
      · cases h
  | flushEnd =>
    refine Or.inr ⟨fun e => Action.noConfusion e, fun e => Action.noConfusion e, ?_⟩
    simp only [Pipe.step] at h
    split at h
    · cases h
    · cases hrec : Module.receive p.w with
      | some w' => simp [hrec] at h
      | none =>
        simp only [hrec, Module.flushEnd, hc, Option.some.injEq] at h
        rw [← h]
        simp [writes_append, writes]
  | Done =>
    refine Or.inr ⟨fun e => Action.noConfusion e, fun e => Action.noConfusion e, ?_⟩
    simp only [Pipe.step] at h
    have key : ∀ w', Module.done p.w = .ret () w' → writes w'.calls = writes p.w.calls := by
      intro w' e
      unfold Module.done at e
      split at e
      · cases e
      · cases e
        rfl
    cases hd : Module.done p.w with
    | ret v w' =>
      cases hlp : p.loop with
      | select => simp [hlp, hd] at h
      | flush => simp [hlp, hd] at h
      | logDone =>
        simp only [hlp, hd, Option.some.injEq] at h
        rw [← h]
        exact key w' hd
      | flushDone =>
        simp only [hlp, hd, Option.some.injEq] at h
        rw [← h]
        exact key w' hd
    | panic e w' => cases hlp : p.loop <;> simp [hlp, hd] at h
    | block e w' => cases hlp : p.loop <;> simp [hlp, hd] at h
  | Flush =>
    refine Or.inr ⟨fun e => Action.noConfusion e, fun e => Action.noConfusion e, ?_⟩
    simp only [Pipe.step, hs, Bool.false_eq_true, if_false] at h
    rcases Flush_async p.w hs with e | ⟨cap, buf, e, hz⟩ | ⟨cap, buf, e, hz⟩
    · simp [e] at h
    · simp only [e, Option.some.injEq] at h
      rw [← h]
      rfl
    · simp only [e, Option.some.injEq] at h
      rw [← h]
      rfl
  | FlushReturn i =>
    refine Or.inr ⟨fun e => Action.noConfusion e, fun e => Action.noConfusion e, ?_⟩
    simp only [Pipe.step] at h
    split at h
    · cases hk : Module.FlushWake p.w with
      | ret v w' =>
        simp only [hk, Option.some.injEq] at h
        obtain ⟨_, _, _, a4⟩ := FlushWake_ret p.w w' hk
        rw [← h, a4]
        rfl
      | panic e w' => simp [hk] at h
      | block e w' => simp [hk] at h
    · cases h
  | Config config =>
    refine Or.inr ⟨fun e => Action.noConfusion e, fun e => Action.noConfusion e, ?_⟩
    simp only [Pipe.step] at h
    split at h
    · cases h
    · simp only [Option.some.injEq] at h
      rw [← h]
      rfl
  | Configure env value =>
    refine Or.inr ⟨fun e => Action.noConfusion e, fun e => Action.noConfusion e, ?_⟩
    simp only [Pipe.step] at h
    split at h
    · cases h
    · simp only [Option.some.injEq] at h
      obtain ⟨c, e⟩ := Configure_eq_setConfig env p.w value
      rw [← h, e]
      rfl

/-- C6, as amended: the record handed to the connection's `Write` carries the
format configured when `Module.write` runs.  In async mode, in every state
the pipeline reaches, the step that takes a record from the channel (in the
`log` case of `eventLoop` or in the loop of `flush`, whatever was configured
when the record was accepted and whatever stood before it in the channel)
passes it to the connection's `Write` carrying the `config.Format` of that
state, the record keeps that format, and `Format` renders it with it; no
other step calls the connection's `Write`.  In sync mode `Write` passes the
record carrying the `config.Format` of the state it is called in. -/
theorem record_carries_format_at_write (w : World) (as : List Action) (p0 p q : Pipe)
    (a : Action) (hf : Fresh w) (h0 : Pipe.start w = some p0) (h : p0.run as = some p)
    (hstep : p.step a = some q) :
    ((a = .eventLoopLog ∨ a = .flushLog) →
        ∃ cap msg rest, p.w.mod.logger = some ⟨cap, msg :: rest⟩ ∧
          q.w.calls =
            p.w.calls ++ [.Write msg { p.w.heap msg with format := p.w.mod.config.Format }] ∧
          q.w.heap msg = { p.w.heap msg with format := p.w.mod.config.Format } ∧
          ∀ env, Log.Format env (q.w.heap msg) =
            Log.Format env { p.w.heap msg with format := p.w.mod.config.Format }) ∧
      (a ≠ .eventLoopLog → a ≠ .flushLog → writes q.w.calls = writes p.w.calls) ∧
      ∀ (ws : World) (msg : Ptr) (connect : Connect), ws.mod.config.Sync = true →
        ws.mod.connect = some connect → ¬ ws.mod.config.Level < (ws.heap msg).Level →
        ∃ w', Module.Write ws msg =
            .ret (connect.Write ws.calls msg
              { stamped ws msg with format := ws.mod.config.Format }) w' ∧
          w'.calls =
            ws.calls ++ [.Write msg { stamped ws msg with format := ws.mod.config.Format }] := by
  have hp := Pipe.Inv_run as p0 p (Pipe.Inv_start w p0 hf h0) h
  refine ⟨?_, ?_, ?_⟩
  · intro ha
    rcases Pipe.step_writes p q a hp hstep with ⟨_, cap, msg, rest, e1, e2, e3⟩ | ⟨n1, n2, _⟩
    · exact ⟨cap, msg, rest, e1, e2, e3, fun env => by rw [e3]⟩
    · rcases ha with ha | ha
      · exact absurd ha n1
      · exact absurd ha n2
  · intro n1 n2
    rcases Pipe.step_writes p q a hp hstep with ⟨ha, _⟩ | ⟨_, _, e⟩
    · rcases ha with ha | ha
      · exact absurd ha n1
      · exact absurd ha n2
    · exact e
  · intro ws msg connect hs hc hg
    exact ⟨_, Write_sync_connected ws msg connect hs hc hg, rfl⟩

/-- The sample pipeline: records 2 and 1 are accepted under the first format,
a `Flush` is called, the format is replaced by "%body%", and the loop drains
the channel in `flush`; record 1, second in the channel, is passed to the
connection's `Write` carrying "%body%". -/
theorem record_carries_format_at_write_witness :
    ∃ cap msg rest,
      (samplePipe 1000
        [.Write 2, .Write 1, .Flush, .Config { sampleConfig false 1000 with Format := "%body%" },
          .eventLoopSignal, .flushLog, .Done]).w.mod.logger = some ⟨cap, msg :: rest⟩ ∧
      (samplePipe 1000
        [.Write 2, .Write 1, .Flush, .Config { sampleConfig false 1000 with Format := "%body%" },
          .eventLoopSignal, .flushLog, .Done, .flushLog]).w.calls =
        (samplePipe 1000
          [.Write 2, .Write 1, .Flush, .Config { sampleConfig false 1000 with Format := "%body%" },
            .eventLoopSignal, .flushLog, .Done]).w.calls ++
          [.Write msg
            { (samplePipe 1000
                [.Write 2, .Write 1, .Flush,
                  .Config { sampleConfig false 1000 with Format := "%body%" },
                  .eventLoopSignal, .flushLog, .Done]).w.heap msg with format := "%body%" }] :=
  ((record_carries_format_at_write (sampleWorld false 1000)
    [.Write 2, .Write 1, .Flush, .Config { sampleConfig false 1000 with Format := "%body%" },
      .eventLoopSignal, .flushLog, .Done]
    (sampleStart 1000)
    (samplePipe 1000
      [.Write 2, .Write 1, .Flush, .Config { sampleConfig false 1000 with Format := "%body%" },
        .eventLoopSignal, .flushLog, .Done])
    (samplePipe 1000
      [.Write 2, .Write 1, .Flush, .Config { sampleConfig false 1000 with Format := "%body%" },
        .eventLoopSignal, .flushLog, .Done, .flushLog])
    .flushLog ⟨rfl, rfl, rfl, rfl, rfl, rfl, rfl⟩ rfl rfl rfl).1 (Or.inr rfl)).imp
    fun _ h => h.imp fun _ h => h.imp fun _ h => ⟨h.1, h.2.1⟩

/-- C6 fails as stated: in the sample pipeline a record is accepted by `Write`
while the format is "%time% [%level%] %body%", the configuration is replaced
by one with the format "%body%", and the loop then hands the record to the
connection's `Write` carrying "%body%"; `Format` renders it as "hello", not
as the first format would. -/
theorem record_format_follows_reconfiguration :
    ∃ p1 p3, (sampleStart 1000).run [.Write 1] = some p1 ∧ p1.enqueued = [1] ∧
      p1.w.mod.config.Format = "%time% [%level%] %body%" ∧
      (sampleStart 1000).run
        [.Write 1, .Config { sampleConfig false 1000 with Format := "%body%" }, .eventLoopLog]
        = some p3 ∧
      p3.w.calls = [.Open, .Write 1 ⟨"%body%", 1650271473000000000, 1, "hello"⟩] ∧
      Log.Format sampleEnv (p3.w.heap 1) = "hello" ∧
      Log.Format sampleEnv { p3.w.heap 1 with format := "%time% [%level%] %body%" }
        = "2022-04-18 08:44:33.000 [PANIC] hello" :=
  ⟨_, _, rfl, rfl, rfl, rfl, by decide, by decide, by decide⟩

/-! ## Sync mode -/

/-- C7: in sync mode with a connection attached, for every record that passes
the level gate, `Module.Write` returns what the connection's `Write` returns
for that record (with its time filled in and the configured format), the
call is recorded, the module (`config`, `connect`, `connected` and the rest)
is unchanged whatever the result, and so a further `Write` of a record that
passes the gate reaches the connection's `Write` again. -/
theorem Write_sync_returns_sink_result (w : World) (msg : Ptr) (connect : Connect)
    (hs : w.mod.config.Sync = true) (hc : w.mod.connect = some connect)
    (hl : ¬ w.mod.config.Level < (w.heap msg).Level) :
    ∃ w', Module.Write w msg =
        .ret (connect.Write w.calls msg { stamped w msg with format := w.mod.config.Format }) w' ∧
      w'.calls = w.calls ++ [.Write msg { stamped w msg with format := w.mod.config.Format }] ∧
      w'.mod = w.mod ∧
      ∀ msg2, ¬ w'.mod.config.Level < (w'.heap msg2).Level →
        ∃ w'' log, Module.Write w' msg2 = .ret (connect.Write w'.calls msg2 log) w'' ∧
          w''.calls = w'.calls ++ [.Write msg2 log] := by
  refine ⟨_, Write_sync_connected w msg connect hs hc hl, rfl, rfl, ?_⟩
  intro msg2 hl2
  exact ⟨_, _, Write_sync_connected _ msg2 connect hs hc hl2, rfl⟩

/-- The connected sample module in sync mode: the sink fails on record 3 with
"disk full", `Write` returns that error and the module is unchanged. -/
theorem Write_sync_returns_sink_result_witness :
    ∃ w', Module.Write (sampleConnected true 1000) 3 = .ret (some (.other "disk full")) w' ∧
      w'.mod = (sampleConnected true 1000).mod :=
  (Write_sync_returns_sink_result (sampleConnected true 1000) 3 sampleConnect rfl rfl
    (by decide)).imp fun _ h => ⟨h.1, h.2.2.1⟩

/-! ## The capacity of the channel -/

/-- C8 fails on the code: whatever `config.Pool` is (2, say), the channel that
`Connect` makes has capacity 100; with `Pool = 2` three records are queued
and no `Write` is parked. -/
theorem Connect_ignores_Pool :
    (∀ pool, (sampleStart pool).w.mod.config.Pool = pool ∧
        Pipe.start (sampleWorld false pool) = some (sampleStart pool) ∧
        (sampleStart pool).w.mod.logger = some ⟨100, []⟩) ∧
      ∃ p, (sampleStart 2).run [.Write 1, .Write 2, .Write 4] = some p ∧ p.parked = [] ∧
        p.w.mod.logger = some ⟨100, [1, 2, 4]⟩ :=
  ⟨fun _ => ⟨rfl, rfl, rfl⟩, _, rfl, rfl, rfl⟩

/-! ## Format -/

/-- C9 fails on the code: the comment on `Config.Format` lists `%unix%`, but
`Format` replaces `%nano%`, `%time%`, `%level%` and `%body%` only; the
template "%unix%" is rendered as itself for every record, while "%nano%"
gives the time in decimal. -/
theorem Format_leaves_unix (env : Env) (t : Int) (l : Level) (b : String) :
    Log.Format env ⟨"%unix%", t, l, b⟩ = "%unix%" ∧
      Log.Format env ⟨"%nano%", 1650271473, l, b⟩ = "1650271473" :=
  ⟨rfl, rfl⟩

/-! ## The registry -/

/-- C10: `Driver` with a nil driver panics and leaves the world as it was;
with a driver `d` it returns, every other name keeps its entry, and the entry
of `name` is `d` when `override` is set or `name` had no entry, and stays
`d0` when `override` is not set and `name` was registered with `d0`. -/
theorem Driver_first_wins_unless_override (w : World) (name : String) (d : Driver)
    (override : Bool) :
    Module.Driver w name none override = .panic (.invalidDriver name) w ∧
      ∃ w', Module.Driver w name (some d) override = .ret () w' ∧
        (∀ other, other ≠ name → w'.mod.drivers other = w.mod.drivers other) ∧
        (override = true → w'.mod.drivers name = some (some d)) ∧
        (w.mod.drivers name = none → w'.mod.drivers name = some (some d)) ∧
        (∀ d0, override = false → w.mod.drivers name = some (some d0) →
          w'.mod.drivers name = some (some d0)) := by
  refine ⟨rfl, ?_⟩
  cases override with
  | true =>
    refine ⟨_, rfl, ?_, ?_, ?_, ?_⟩
    · intro other ho
      simp [Function.update, ho]
    · intro _
      simp
    · intro _
      simp
    · intro d0 ho
      cases ho
  | false =>
    cases hd : w.mod.drivers name with
    | none =>
      refine ⟨_, by simp [Module.Driver, hd]; rfl, ?_, ?_, ?_, ?_⟩
      · intro other ho
        simp [Function.update, ho]
      · intro ho
        cases ho
      · intro _
        simp
      · intro d0 _ h0
        cases h0
    | some v =>
      cases v with
      | none =>
        refine ⟨_, by simp [Module.Driver, hd]; rfl, ?_, ?_, ?_, ?_⟩
        · intro other ho
          simp [Function.update, ho]
        · intro ho
          cases ho
        · intro h0
          cases h0
        · intro d0 _ h0
          cases h0
      | some d1 =>
        refine ⟨w, by simp [Module.Driver, hd], ?_, ?_, ?_, ?_⟩
        · intro other _
          rfl
        · intro ho
          cases ho
        · intro h0
          cases h0
        · intro d0 _ h0
          rw [hd]
          exact h0

/-- The sample registry holds `sampleDriver` under "default": registering
`otherDriver` there keeps it without override, replaces it with override,
and a new name takes the driver. -/
theorem Driver_first_wins_unless_override_witness :
    (∃ w', Module.Driver (sampleWorld true 1000) "default" (some otherDriver) false = .ret () w' ∧
        w'.mod.drivers "default" = some (some sampleDriver)) ∧
      (∃ w', Module.Driver (sampleWorld true 1000) "default" (some otherDriver) true = .ret () w' ∧
        w'.mod.drivers "default" = some (some otherDriver)) ∧
      ∃ w', Module.Driver (sampleWorld true 1000) "file" (some otherDriver) false = .ret () w' ∧
        w'.mod.drivers "file" = some (some otherDriver) :=
  ⟨(Driver_first_wins_unless_override (sampleWorld true 1000) "default" otherDriver false).2.imp
      fun _ h => ⟨h.1, h.2.2.2.2 sampleDriver rfl rfl⟩,
    (Driver_first_wins_unless_override (sampleWorld true 1000) "default" otherDriver true).2.imp
      fun _ h => ⟨h.1, h.2.2.1 rfl⟩,
    (Driver_first_wins_unless_override (sampleWorld true 1000) "file" otherDriver false).2.imp
      fun _ h => ⟨h.1, h.2.2.2.1 rfl⟩⟩

end ChefsLog
